import Mathlib

/-!
Verification development for the single-producer single-consumer queue
`ConcurrentQueue<T, MAX_BLOCK_SIZE>` of src/src/flair/internal/ConcurrentQueue.h.

The queue is a circular singly-linked ring of fixed-capacity circular
buffers ("blocks").  We embed it shallowly for sequential executions
(single thread playing both roles, which is the setting of the claims):

* a `Block` keeps the C++ fields `front`, `localTail`, `tail`,
  `localFront`, `data` and `sizeMask`; the raw storage `data` is a list
  whose length is the block capacity, slots outside the `front..tail`
  window hold junk (the placement-new / destroy-in-place discipline of
  the source leaves destroyed memory in place, which we mirror by never
  erasing slots);
* the ring of blocks is a list `blocks` together with the indices
  `frontBlock` and `tailBlock`; the `next` pointer of the block at
  index `i` is the block at index `(i + 1) % blocks.length`, and the
  growth path splices a freshly made block immediately after the tail
  block exactly as `tailBlock_->next = newBlock` does;
* `size_t` arithmetic is `Nat` arithmetic reduced mod `2 ^ 64` at the
  two places the source relies on wraparound (`ceilToPow2`, the
  `blockTail - blockFront` subtraction of `size_approx`, and the
  `_size - 1` in the block constructor);
* `malloc` may fail: operations that can allocate take an `allocOk`
  flag telling whether the single possible `make_block` call succeeds;
* the `reentrant_guard` throw is modelled by `Except`: every public
  operation checks its role flag first and returns `Except.error q`
  (the state it was entered in, unmodified) when re-entered.
-/

/-- Width of `size_t` on the tested x86-64 targets: all machine
arithmetic of the source is `Nat` arithmetic modulo this constant. -/
def sizeTMod : Nat := 2 ^ 64

/-- One block of the queue: a circular buffer of `sizeMask + 1` slots
(mirrors `struct block` of ConcurrentQueue.h; the cache-line fillers and
the `rawThis` bookkeeping pointer carry no state and are dropped). -/
structure Block (α : Type) where
  front : Nat
  localTail : Nat
  tail : Nat
  localFront : Nat
  data : List α
  sizeMask : Nat
  deriving Repr, DecidableEq

instance : Inhabited (Block α) := ⟨⟨0, 0, 0, 0, [], 0⟩⟩

/-- The queue state: the ring of blocks (successor of index `i` is
index `(i + 1) % blocks.length`), the consumer pointer `frontBlock` and
the producer pointer `tailBlock` as indices into the ring, the growth
watermark `largestBlockSize`, and the two reentrancy-guard flags. -/
structure ConcurrentQueue (α : Type) where
  blocks : List (Block α)
  frontBlock : Nat
  tailBlock : Nat
  largestBlockSize : Nat
  enqueuing : Bool
  dequeuing : Bool
  deriving Repr, DecidableEq

/-- Mirror of `make_block(capacity)`: fresh block, all indices zero,
`sizeMask = capacity - 1` computed in `size_t` arithmetic (the source
initialises `sizeMask(_size - 1)`, which wraps to `2^64 - 1` when the
capacity is `0`), and `capacity` uninitialised slots. -/
def make_block (α : Type) [Inhabited α] (capacity : Nat) : Block α :=
  { front := 0, localTail := 0, tail := 0, localFront := 0,
    data := List.replicate capacity default,
    sizeMask := (capacity + (sizeTMod - 1)) % sizeTMod }

/-- The saturating or-cascade of `ceilToPow2`: the explicit shifts by
1, 2 and 4 of the source followed by its `for` loop, which on a 64-bit
`size_t` performs the shifts by 8, 16 and 32. -/
def smear (x : Nat) : Nat :=
  let x1 := x ||| (x >>> 1)
  let x2 := x1 ||| (x1 >>> 2)
  let x3 := x2 ||| (x2 >>> 4)
  let x4 := x3 ||| (x3 >>> 8)
  let x5 := x4 ||| (x4 >>> 16)
  x5 ||| (x5 >>> 32)

/-- Mirror of `ceilToPow2(x)`: decrement (with `size_t` wraparound),
saturate all bits below the most significant one, increment (with
wraparound). -/
def ceilToPow2 (x : Nat) : Nat :=
  (smear ((x + (sizeTMod - 1)) % sizeTMod) + 1) % sizeTMod

/-- Default value of the constructor argument `maxSize`. -/
def defaultMaxSize : Nat := 15

/-- Precondition asserted by the constructor (`assert(maxSize > 0)`). -/
def ctorPrecondition (maxSize : Nat) : Prop := 0 < maxSize

/-- Mirror of the constructor `ConcurrentQueue(maxSize)` for the
template parameter `MAX_BLOCK_SIZE = maxBlockSize`, assuming every
construction-time `make_block` succeeds (a failed one throws
`bad_alloc`, so no queue state results from it): either one block of
capacity `ceilToPow2 (maxSize + 1)`, or — when that exceeds
`2 * MAX_BLOCK_SIZE` — a ring of
`(maxSize + MAX_BLOCK_SIZE * 2 - 3) / (MAX_BLOCK_SIZE - 1)` blocks of
capacity `MAX_BLOCK_SIZE` each. -/
def mkQueue (α : Type) [Inhabited α] (maxBlockSize maxSize : Nat) :
    ConcurrentQueue α :=
  let largestBlockSize := ceilToPow2 (maxSize + 1)
  if maxBlockSize * 2 < largestBlockSize then
    let initialBlockCount := (maxSize + maxBlockSize * 2 - 3) / (maxBlockSize - 1)
    { blocks := List.replicate initialBlockCount (make_block α maxBlockSize),
      frontBlock := 0, tailBlock := 0, largestBlockSize := maxBlockSize,
      enqueuing := false, dequeuing := false }
  else
    { blocks := [make_block α largestBlockSize],
      frontBlock := 0, tailBlock := 0, largestBlockSize := largestBlockSize,
      enqueuing := false, dequeuing := false }

/-- Result of `inner_enqueue`: the returned boolean, the queue state
after the call, and whether the call performed (attempted) a block
allocation, i.e. reached the `make_block` call site. -/
structure EnqResult (α : Type) where
  ok : Bool
  q : ConcurrentQueue α
  allocated : Bool
  deriving Repr, DecidableEq

/-- Mirror of `inner_enqueue<canAlloc>(element)` (the body inside the
reentrant guard), for template parameter `MAX_BLOCK_SIZE =
maxBlockSize`.  `allocOk` tells whether the `make_block` call, if
reached, succeeds.  The source checks room with
`nextBlockTail != blockFront || nextBlockTail != (localFront = front)`;
the short-circuit means `localFront` is refreshed from `front` only
when the first test fails, which the nesting below reproduces. -/
def inner_enqueue (maxBlockSize : Nat) (canAlloc : Bool) (allocOk : Bool)
    [Inhabited α] (element : α) (q : ConcurrentQueue α) : EnqResult α :=
  let tailBlock_ := q.blocks.getD q.tailBlock default
  let blockFront := tailBlock_.localFront
  let blockTail := tailBlock_.tail
  let nextBlockTail := (blockTail + 1) &&& tailBlock_.sizeMask
  if nextBlockTail ≠ blockFront then
    -- room per the cached front; store at blockTail, publish the new tail
    let b := { tailBlock_ with
                 data := tailBlock_.data.set blockTail element,
                 tail := nextBlockTail }
    { ok := true, q := { q with blocks := q.blocks.set q.tailBlock b },
      allocated := false }
  else
    let refreshedFront := tailBlock_.front
    if nextBlockTail ≠ refreshedFront then
      -- room after refreshing the cached front
      let b := { tailBlock_ with
                   localFront := refreshedFront,
                   data := tailBlock_.data.set blockTail element,
                   tail := nextBlockTail }
      { ok := true, q := { q with blocks := q.blocks.set q.tailBlock b },
        allocated := false }
    else
      -- the tail block is full; the condition above already stored the
      -- refreshed front into localFront
      let b0 := { tailBlock_ with localFront := refreshedFront }
      let q0 := { q with blocks := q.blocks.set q.tailBlock b0 }
      let nextIdx := (q.tailBlock + 1) % q.blocks.length
      if nextIdx ≠ q.frontBlock then
        -- a free block exists ahead: enqueue there and advance tailBlock
        let tailBlockNext := q0.blocks.getD nextIdx default
        let nextBlockFront := tailBlockNext.front
        let nextBlockTail2 := tailBlockNext.tail
        let b1 := { tailBlockNext with
                      localFront := nextBlockFront,
                      data := tailBlockNext.data.set nextBlockTail2 element,
                      tail := (nextBlockTail2 + 1) &&& tailBlockNext.sizeMask }
        { ok := true,
          q := { q0 with blocks := q0.blocks.set nextIdx b1, tailBlock := nextIdx },
          allocated := false }
      else if canAlloc then
        -- no free block: make a new one and splice it after the tail block
        let newBlockSize :=
          if maxBlockSize ≤ q.largestBlockSize then q.largestBlockSize
          else q.largestBlockSize * 2
        if allocOk then
          let newBlock := { make_block α newBlockSize with
                              data := (List.replicate newBlockSize
                                         (default : α)).set 0 element,
                              tail := 1, localTail := 1 }
          { ok := true,
            q := { q0 with
                     blocks := q0.blocks.insertIdx (q.tailBlock + 1) newBlock,
                     tailBlock := q.tailBlock + 1,
                     frontBlock := if q.tailBlock < q.frontBlock
                                   then q.frontBlock + 1 else q.frontBlock,
                     largestBlockSize := newBlockSize },
            allocated := true }
        else
          { ok := false, q := q0, allocated := true }
      else
        { ok := false, q := q0, allocated := false }

/-- Mirror of `try_enqueue(element)`: reentrant guard around
`inner_enqueue<CannotAlloc>`; `Except.error q` models the guard throw
on reentry, which leaves the state untouched. -/
def try_enqueue (maxBlockSize : Nat) [Inhabited α] (element : α)
    (q : ConcurrentQueue α) : Except (ConcurrentQueue α) (Bool × ConcurrentQueue α) :=
  if q.enqueuing then Except.error q
  else
    let r := inner_enqueue maxBlockSize false false element
               { q with enqueuing := true }
    Except.ok (r.ok, { r.q with enqueuing := false })

/-- Mirror of `enqueue(element)`: reentrant guard around
`inner_enqueue<CanAlloc>`. -/
def enqueue (maxBlockSize : Nat) (allocOk : Bool) [Inhabited α] (element : α)
    (q : ConcurrentQueue α) : Except (ConcurrentQueue α) (Bool × ConcurrentQueue α) :=
  if q.enqueuing then Except.error q
  else
    let r := inner_enqueue maxBlockSize true allocOk element
               { q with enqueuing := true }
    Except.ok (r.ok, { r.q with enqueuing := false })

/-- Mirror of `try_dequeue(result)` (body inside the reentrant guard).
The source checks emptiness with
`blockFront != blockTail || blockFront != (localTail = tail)`; the
short-circuit refreshes the consumer's cached tail only when the first
test fails.  In the `frontBlock != tailBlock` branch the source
re-reads `front` and the freshly refreshed `tail` a second time and
jumps back to the fast path when they differ (a double-checked pattern
that matters only under concurrency); the re-read values are modelled
verbatim.  Returns the dequeued value (`none` models `return false`)
and the new state. -/
def try_dequeue [Inhabited α] (q : ConcurrentQueue α) :
    Except (ConcurrentQueue α) (Option α × ConcurrentQueue α) :=
  if q.dequeuing then Except.error q
  else
    let frontBlock_ := q.blocks.getD q.frontBlock default
    let blockTail := frontBlock_.localTail
    let blockFront := frontBlock_.front
    if blockFront ≠ blockTail then
      -- non-empty per the cached tail: read slot blockFront, advance front
      let element := frontBlock_.data.getD blockFront default
      let b := { frontBlock_ with
                   front := (blockFront + 1) &&& frontBlock_.sizeMask }
      Except.ok (some element,
        { q with blocks := q.blocks.set q.frontBlock b })
    else
      let refreshedTail := frontBlock_.tail
      if blockFront ≠ refreshedTail then
        -- non-empty after refreshing the cached tail
        let element := frontBlock_.data.getD blockFront default
        let b := { frontBlock_ with
                     localTail := refreshedTail,
                     front := (blockFront + 1) &&& frontBlock_.sizeMask }
        Except.ok (some element,
          { q with blocks := q.blocks.set q.frontBlock b })
      else if q.frontBlock ≠ q.tailBlock then
        -- double-checked re-read of tail and front (both unchanged in a
        -- sequential execution)
        let blockTail2 := frontBlock_.tail
        let blockFront2 := frontBlock_.front
        if blockFront2 ≠ blockTail2 then
          let element := frontBlock_.data.getD blockFront2 default
          let b := { frontBlock_ with
                       localTail := blockTail2,
                       front := (blockFront2 + 1) &&& frontBlock_.sizeMask }
          Except.ok (some element,
            { q with blocks := q.blocks.set q.frontBlock b })
        else
          -- the front block is drained and another block exists: advance
          let b0 := { frontBlock_ with localTail := blockTail2 }
          let q0 := { q with blocks := q.blocks.set q.frontBlock b0 }
          let nextIdx := (q.frontBlock + 1) % q.blocks.length
          let nextBlock := q0.blocks.getD nextIdx default
          let nextBlockFront := nextBlock.front
          let nextBlockTail := nextBlock.tail
          let element := nextBlock.data.getD nextBlockFront default
          let b1 := { nextBlock with
                        localTail := nextBlockTail,
                        front := (nextBlockFront + 1) &&& nextBlock.sizeMask }
          Except.ok (some element,
            { q0 with blocks := q0.blocks.set nextIdx b1, frontBlock := nextIdx })
      else
        -- single remaining block, confirmed empty (localTail was refreshed
        -- by the emptiness check)
        let b0 := { frontBlock_ with localTail := refreshedTail }
        Except.ok (none, { q with blocks := q.blocks.set q.frontBlock b0 })

/-- Mirror of `pop()`: identical control flow to `try_dequeue` except
that the front element is destroyed without being returned. -/
def pop [Inhabited α] (q : ConcurrentQueue α) :
    Except (ConcurrentQueue α) (Bool × ConcurrentQueue α) :=
  if q.dequeuing then Except.error q
  else
    let frontBlock_ := q.blocks.getD q.frontBlock default
    let blockTail := frontBlock_.localTail
    let blockFront := frontBlock_.front
    if blockFront ≠ blockTail then
      let b := { frontBlock_ with
                   front := (blockFront + 1) &&& frontBlock_.sizeMask }
      Except.ok (true, { q with blocks := q.blocks.set q.frontBlock b })
    else
      let refreshedTail := frontBlock_.tail
      if blockFront ≠ refreshedTail then
        let b := { frontBlock_ with
                     localTail := refreshedTail,
                     front := (blockFront + 1) &&& frontBlock_.sizeMask }
        Except.ok (true, { q with blocks := q.blocks.set q.frontBlock b })
      else if q.frontBlock ≠ q.tailBlock then
        let blockTail2 := frontBlock_.tail
        let blockFront2 := frontBlock_.front
        if blockFront2 ≠ blockTail2 then
          let b := { frontBlock_ with
                       localTail := blockTail2,
                       front := (blockFront2 + 1) &&& frontBlock_.sizeMask }
          Except.ok (true, { q with blocks := q.blocks.set q.frontBlock b })
        else
          let b0 := { frontBlock_ with localTail := blockTail2 }
          let q0 := { q with blocks := q.blocks.set q.frontBlock b0 }
          let nextIdx := (q.frontBlock + 1) % q.blocks.length
          let nextBlock := q0.blocks.getD nextIdx default
          let nextBlockFront := nextBlock.front
          let nextBlockTail := nextBlock.tail
          let b1 := { nextBlock with
                        localTail := nextBlockTail,
                        front := (nextBlockFront + 1) &&& nextBlock.sizeMask }
          Except.ok (true,
            { q0 with blocks := q0.blocks.set nextIdx b1, frontBlock := nextIdx })
      else
        let b0 := { frontBlock_ with localTail := refreshedTail }
        Except.ok (false, { q with blocks := q.blocks.set q.frontBlock b0 })

/-- Mirror of `peek()`: returns the front element without removing it
(`none` models the `nullptr` return); the only state effect is the
refresh of the consumer's cached tail when the fast test fails. -/
def peek [Inhabited α] (q : ConcurrentQueue α) :
    Except (ConcurrentQueue α) (Option α × ConcurrentQueue α) :=
  if q.dequeuing then Except.error q
  else
    let frontBlock_ := q.blocks.getD q.frontBlock default
    let blockTail := frontBlock_.localTail
    let blockFront := frontBlock_.front
    if blockFront ≠ blockTail then
      Except.ok (some (frontBlock_.data.getD blockFront default), q)
    else
      let refreshedTail := frontBlock_.tail
      let b0 := { frontBlock_ with localTail := refreshedTail }
      let q0 := { q with blocks := q.blocks.set q.frontBlock b0 }
      if blockFront ≠ refreshedTail then
        Except.ok (some (frontBlock_.data.getD blockFront default), q0)
      else if q.frontBlock ≠ q.tailBlock then
        let blockTail2 := frontBlock_.tail
        let blockFront2 := frontBlock_.front
        if blockFront2 ≠ blockTail2 then
          Except.ok (some (frontBlock_.data.getD blockFront2 default), q0)
        else
          let nextIdx := (q.frontBlock + 1) % q.blocks.length
          let nextBlock := q0.blocks.getD nextIdx default
          let nextBlockFront := nextBlock.front
          Except.ok (some (nextBlock.data.getD nextBlockFront default), q0)
      else
        Except.ok (none, q0)

/-- Mirror of `size_approx()`: walk the ring once from `frontBlock`,
adding `(blockTail - blockFront) & sizeMask` (a `size_t` subtraction)
for every block.  The walk visits each ring member exactly once, so the
sum may be taken over the block list directly. -/
def size_approx (q : ConcurrentQueue α) : Nat :=
  (q.blocks.map (fun b => ((sizeTMod + b.tail - b.front) % sizeTMod) &&& b.sizeMask)).sum

/-- Number of elements resident in one block, derived from the index
pair exactly as the design prescribes (`front == tail` means empty, one
slot is always wasted): `(size + tail - front) % size` with
`size = sizeMask + 1`. -/
def Block.residentCount (b : Block α) : Nat :=
  ((b.sizeMask + 1) + b.tail - b.front) % (b.sizeMask + 1)

/-- The elements currently resident in one block, oldest first: the
slots from `front` (inclusive) to `tail` (exclusive), walking the
circular buffer. -/
def Block.residentList [Inhabited α] (b : Block α) : List α :=
  (List.range b.residentCount).map
    (fun k => b.data.getD ((b.front + k) % (b.sizeMask + 1)) default)

/-- Per-block resident contents of the whole queue (the element-state
observable: which constructed elements sit where). -/
def residentBlocks [Inhabited α] (q : ConcurrentQueue α) : List (List α) :=
  q.blocks.map Block.residentList

/-- Total number of elements resident in the queue. -/
def residentCount [Inhabited α] (q : ConcurrentQueue α) : Nat :=
  (q.blocks.map (fun b => (Block.residentList b).length)).sum

/-- Sum of the capacities (slot counts) of all blocks of the ring. -/
def totalCapacity (q : ConcurrentQueue α) : Nat :=
  (q.blocks.map (fun b => b.data.length)).sum

/-- List of the capacities of the ring blocks, in ring order: the shape
observable of the block ring. -/
def blockCapacities (q : ConcurrentQueue α) : List Nat :=
  q.blocks.map (fun b => b.data.length)

/-- Some block of the ring has room for at least one more element,
i.e. is not full (`(tail + 1) & sizeMask ≠ front`). -/
def hasRoomAnywhere (q : ConcurrentQueue α) : Bool :=
  q.blocks.any (fun b => ((b.tail + 1) &&& b.sizeMask) ≠ b.front)

/-- Runs one `try_enqueue` per list element, collecting the returned
booleans; `none` if a reentrancy error fires (it never does from a
quiescent state). -/
def runTryEnqueues (maxBlockSize : Nat) [Inhabited α] :
    List α → ConcurrentQueue α → Option (List Bool × ConcurrentQueue α)
  | [], q => some ([], q)
  | v :: vs, q =>
    match try_enqueue maxBlockSize v q with
    | Except.error _ => none
    | Except.ok (b, q1) =>
      (runTryEnqueues maxBlockSize vs q1).map (fun r => (b :: r.1, r.2))

/-- Runs one growable `enqueue` per list element (all allocations
succeed), collecting the returned booleans. -/
def runEnqueues (maxBlockSize : Nat) [Inhabited α] :
    List α → ConcurrentQueue α → Option (List Bool × ConcurrentQueue α)
  | [], q => some ([], q)
  | v :: vs, q =>
    match enqueue maxBlockSize true v q with
    | Except.error _ => none
    | Except.ok (b, q1) =>
      (runEnqueues maxBlockSize vs q1).map (fun r => (b :: r.1, r.2))

/-- Runs `n` consecutive `try_dequeue` calls, collecting the results
(`none` entries are failed dequeues). -/
def runTryDequeues [Inhabited α] :
    Nat → ConcurrentQueue α → Option (List (Option α) × ConcurrentQueue α)
  | 0, q => some ([], q)
  | n + 1, q =>
    match try_dequeue q with
    | Except.error _ => none
    | Except.ok (r, q1) =>
      (runTryDequeues n q1).map (fun p => (r :: p.1, p.2))

/-- Enqueue the values `0 .. n-1` through the growable `enqueue` on a
default-constructed queue (`MAX_BLOCK_SIZE = 512`), then call
`try_dequeue` `n` times and return the collected results. -/
def fifoRun (n : Nat) : Option (List (Option Nat)) :=
  match runEnqueues 512 (List.range n) (mkQueue Nat 512 defaultMaxSize) with
  | none => none
  | some (_, q) =>
    match runTryDequeues n q with
    | none => none
    | some (rs, _) => some rs

/-- Well-formedness of a block: the index fields stay below the
capacity, the capacity is the power of two `sizeMask + 1 = 2 ^ t` with
`t ≤ 63`, and the storage has exactly that many slots. -/
def BlockWF (b : Block α) : Prop :=
  b.front ≤ b.sizeMask ∧ b.tail ≤ b.sizeMask ∧
  b.localFront ≤ b.sizeMask ∧ b.localTail ≤ b.sizeMask ∧
  (∃ t, t ≤ 63 ∧ b.sizeMask = 2 ^ t - 1) ∧
  b.data.length = b.sizeMask + 1

/-- Well-formedness of a queue state: nonempty ring, in-range block
pointers, well-formed blocks, and a power-of-two watermark. -/
def WF (q : ConcurrentQueue α) : Prop :=
  0 < q.blocks.length ∧
  q.frontBlock < q.blocks.length ∧
  q.tailBlock < q.blocks.length ∧
  (∀ b ∈ q.blocks, BlockWF b) ∧
  (∃ t, 1 ≤ t ∧ t ≤ 63 ∧ q.largestBlockSize = 2 ^ t)

instance (b : Block α) : Decidable (BlockWF b) :=
  decidable_of_iff
    (b.front ≤ b.sizeMask ∧ b.tail ≤ b.sizeMask ∧ b.localFront ≤ b.sizeMask ∧
     b.localTail ≤ b.sizeMask ∧ (∃ t, t < 64 ∧ b.sizeMask = 2 ^ t - 1) ∧
     b.data.length = b.sizeMask + 1)
    (by
      unfold BlockWF
      constructor
      · rintro ⟨a1, a2, a3, a4, ⟨t, ht, he⟩, a6⟩
        exact ⟨a1, a2, a3, a4, ⟨t, by omega, he⟩, a6⟩
      · rintro ⟨a1, a2, a3, a4, ⟨t, ht, he⟩, a6⟩
        exact ⟨a1, a2, a3, a4, ⟨t, by omega, he⟩, a6⟩)

instance (q : ConcurrentQueue α) : Decidable (WF q) :=
  decidable_of_iff
    (0 < q.blocks.length ∧ q.frontBlock < q.blocks.length ∧
     q.tailBlock < q.blocks.length ∧ (∀ b ∈ q.blocks, BlockWF b) ∧
     (∃ t, t < 64 ∧ (1 ≤ t ∧ q.largestBlockSize = 2 ^ t)))
    (by
      unfold WF
      constructor
      · rintro ⟨a1, a2, a3, a4, ⟨t, h1, h2, h3⟩⟩
        exact ⟨a1, a2, a3, a4, ⟨t, h2, by omega, h3⟩⟩
      · rintro ⟨a1, a2, a3, a4, ⟨t, h1, h2, h3⟩⟩
        exact ⟨a1, a2, a3, a4, ⟨t, by omega, h1, h3⟩⟩)

/-- The producer's cached copy of a block front never makes the block
look emptier than it is: the element count computed against
`localFront` dominates the true count.  This holds in every state the
program can reach (the cache is only ever a past value of `front`, and
`front` only advances by consuming elements). -/
def ShadowInv (q : ConcurrentQueue α) : Prop :=
  ∀ b ∈ q.blocks,
    ((b.sizeMask + 1) + b.tail - b.front) % (b.sizeMask + 1) ≤
    ((b.sizeMask + 1) + b.tail - b.localFront) % (b.sizeMask + 1)

instance (q : ConcurrentQueue α) : Decidable (ShadowInv q) :=
  inferInstanceAs (Decidable (∀ b ∈ q.blocks,
    ((b.sizeMask + 1) + b.tail - b.front) % (b.sizeMask + 1) ≤
    ((b.sizeMask + 1) + b.tail - b.localFront) % (b.sizeMask + 1)))

/-- The states a queue of the default configuration
(`MAX_BLOCK_SIZE = maxBlockSize = 2 ^ e`, `1 ≤ e ≤ 62`, as the static
asserts require) can reach: a constructed queue, closed under the five
public operations, with any allocation outcome. -/
inductive Reachable (maxBlockSize : Nat) [Inhabited α] : ConcurrentQueue α → Prop
  | init (maxSize e : Nat) (h1 : 1 ≤ maxSize) (h2 : maxSize ≤ 2 ^ 63 - 1)
      (he1 : 1 ≤ e) (he2 : e ≤ 62) (hm : maxBlockSize = 2 ^ e) :
      Reachable maxBlockSize (mkQueue α maxBlockSize maxSize)
  | stepTryEnqueue (q q' : ConcurrentQueue α) (v : α) (ok : Bool)
      (hq : Reachable maxBlockSize q)
      (h : try_enqueue maxBlockSize v q = Except.ok (ok, q')) :
      Reachable maxBlockSize q'
  | stepEnqueue (q q' : ConcurrentQueue α) (v : α) (allocOk ok : Bool)
      (hq : Reachable maxBlockSize q)
      (h : enqueue maxBlockSize allocOk v q = Except.ok (ok, q')) :
      Reachable maxBlockSize q'
  | stepTryDequeue (q q' : ConcurrentQueue α) (r : Option α)
      (hq : Reachable maxBlockSize q)
      (h : try_dequeue q = Except.ok (r, q')) :
      Reachable maxBlockSize q'
  | stepPop (q q' : ConcurrentQueue α) (ok : Bool)
      (hq : Reachable maxBlockSize q)
      (h : pop q = Except.ok (ok, q')) :
      Reachable maxBlockSize q'
  | stepPeek (q q' : ConcurrentQueue α) (r : Option α)
      (hq : Reachable maxBlockSize q)
      (h : peek q = Except.ok (r, q')) :
      Reachable maxBlockSize q'

/-- Concrete scenario for the growth-sizing claims: template cap
`MAX_BLOCK_SIZE = 4`, constructor hint 4, so `ceilToPow2 5 = 8` gives a
single block of capacity 8 and watermark 8 (already above the cap);
seven `try_enqueue` calls fill the block completely. -/
def c3State : ConcurrentQueue Nat :=
  ((runTryEnqueues 4 (List.range 7) (mkQueue Nat 4 4)).map Prod.snd).getD
    (mkQueue Nat 4 4)

/-- The queue after one growable `enqueue` on `c3State` (the
allocation succeeds, so the ring grows). -/
def c3After : ConcurrentQueue Nat :=
  match enqueue 4 true 99 c3State with
  | Except.ok r => r.2
  | Except.error q => q

/-- Concrete scenario for the try_enqueue contract: template cap
`MAX_BLOCK_SIZE = 4`, hint 8, so the constructor builds 4 blocks of
capacity 4 (3 usable slots each); 12 `try_enqueue` calls fill every
block. -/
def c5Filled : ConcurrentQueue Nat :=
  ((runTryEnqueues 4 (List.range 12) (mkQueue Nat 4 8)).map Prod.snd).getD
    (mkQueue Nat 4 8)

/-- The scenario state after draining three elements: the front block
is completely empty (three free slots), yet the tail block is full and
its ring successor is the front block. -/
def c5State : ConcurrentQueue Nat :=
  ((runTryDequeues 3 c5Filled).map Prod.snd).getD c5Filled

/-- A queue state in the middle of an enqueue and of a dequeue: both
reentrancy flags are set, as they are while the respective call is
executing the element constructor or destructor. -/
def c8State : ConcurrentQueue Nat :=
  { blocks := [make_block Nat 4], frontBlock := 0, tailBlock := 0,
    largestBlockSize := 4, enqueuing := true, dequeuing := true }

/-- Index of the block the producer is filling after `j` successful
enqueues on a fresh ring whose blocks all hold `m` usable slots
(`m = sizeMask`): the producer moves to the next block lazily, on the
enqueue after a block has taken its `m`-th element. -/
def runTailIdx (m j : Nat) : Nat := if j = 0 then 0 else (j - 1) / m

/-- State reached after `j` successful `try_enqueue` calls on a
freshly constructed ring of `n` blocks of equal mask `m`: the consumer
side never moved, blocks before the producer's block are full (tail at
`m`), the producer's block holds the remainder, later blocks are
untouched. -/
def EnqRunInv {α : Type} [Inhabited α] (n m j : Nat) (q : ConcurrentQueue α) : Prop :=
  q.enqueuing = false ∧
  q.blocks.length = n ∧
  q.frontBlock = 0 ∧
  q.tailBlock = runTailIdx m j ∧
  ∀ i, i < n →
    (q.blocks.getD i default).front = 0 ∧
    (q.blocks.getD i default).localFront = 0 ∧
    (q.blocks.getD i default).sizeMask = m ∧
    (q.blocks.getD i default).tail =
      (if i < runTailIdx m j then m
       else if i = runTailIdx m j then j - m * runTailIdx m j
       else 0)

/-- State of a single-block queue in the middle of a sequential FIFO
run: the values `done` have already been dequeued, the values `rest`
are resident.  The producer index `tail` sits at
`done.length + rest.length`, the consumer index `front` at
`done.length`, the consumer's cached tail is still `0` until the first
dequeue refreshes it, and the storage holds each resident value at its
enqueue position (slots outside the window keep junk). -/
def SbInv {α : Type} [Inhabited α] (m : Nat) (done rest : List α)
    (q : ConcurrentQueue α) : Prop :=
  q.enqueuing = false ∧ q.dequeuing = false ∧
  q.blocks.length = 1 ∧ q.frontBlock = 0 ∧ q.tailBlock = 0 ∧
  (q.blocks.getD 0 default).sizeMask = m ∧
  (q.blocks.getD 0 default).front = done.length ∧
  (q.blocks.getD 0 default).localFront = 0 ∧
  (q.blocks.getD 0 default).tail = done.length + rest.length ∧
  (q.blocks.getD 0 default).localTail =
    (if done.length = 0 then 0 else done.length + rest.length) ∧
  (q.blocks.getD 0 default).data.length = m + 1 ∧
  ∀ i, i < rest.length →
    (q.blocks.getD 0 default).data.getD (done.length + i) default
      = rest.getD i default

deriving instance DecidableEq for Except

set_option maxRecDepth 1000000

/-- Widening step of the or-cascade: if every bit of `z` sees a window
of `w` bits of `y`, then after or-ing in `z` shifted right by `w`
every bit sees a window of `2w` bits. -/
theorem window_step {z y w : Nat}
    (h : ∀ j, z.testBit j = true ↔ ∃ d, d < w ∧ y.testBit (j + d) = true) (j : Nat) :
    (z ||| z >>> w).testBit j = true ↔ ∃ d, d < w + w ∧ y.testBit (j + d) = true := by
  simp only [Nat.testBit_or, Nat.testBit_shiftRight, Bool.or_eq_true, h j, h (w + j)]
  constructor
  · rintro (⟨d, hd, ht⟩ | ⟨d, hd, ht⟩)
    · exact ⟨d, by omega, ht⟩
    · refine ⟨w + d, by omega, ?_⟩
      have e : j + (w + d) = w + j + d := by omega
      rw [e]; exact ht
  · rintro ⟨d, hd, ht⟩
    by_cases hdw : d < w
    · exact Or.inl ⟨d, hdw, ht⟩
    · refine Or.inr ⟨d - w, by omega, ?_⟩
      have e : w + j + (d - w) = j + d := by omega
      rw [e]; exact ht

/-- Base case of the window argument. -/
theorem window_one (y j : Nat) :
    y.testBit j = true ↔ ∃ d, d < 1 ∧ y.testBit (j + d) = true := by
  constructor
  · intro h; exact ⟨0, by omega, by simpa using h⟩
  · rintro ⟨d, hd, ht⟩
    have : d = 0 := by omega
    subst this; simpa using ht

/-- Bit `j` of the or-cascade result is set iff some bit of the input
within 64 positions above `j` is set. -/
theorem smear_testBit (y j : Nat) :
    (smear y).testBit j = true ↔ ∃ d, d < 64 ∧ y.testBit (j + d) = true := by
  have w2 := window_step (window_one y)
  have w4 := window_step w2
  have w8 := window_step w4
  have w16 := window_step w8
  have w32 := window_step w16
  have w64 := window_step w32
  exact w64 j

/-- The top bit (at position `size - 1`) of a nonzero number is set. -/
theorem testBit_msb {y : Nat} (hy : y ≠ 0) : y.testBit (y.size - 1) = true := by
  have hpos : 0 < y.size := Nat.size_pos.mpr (Nat.pos_of_ne_zero hy)
  have h1 : 2 ^ (y.size - 1) ≤ y := Nat.lt_size.mp (by omega)
  have h2 : y < 2 ^ y.size := Nat.lt_size_self y
  have hub : y < (1 + 1) * 2 ^ (y.size - 1) := by
    have e : 2 ^ y.size = 2 ^ (y.size - 1) * 2 := by
      have h3 : y.size - 1 + 1 = y.size := by omega
      rw [← Nat.pow_succ, Nat.succ_eq_add_one, h3]
    omega
  have hdiv : y / 2 ^ (y.size - 1) = 1 :=
    Nat.div_eq_of_lt_le (by omega) hub
  rw [Nat.testBit_to_div_mod, hdiv]
  rfl

/-- The or-cascade saturates every bit below the most significant one:
for inputs below `2 ^ 64` it computes `2 ^ size - 1`. -/
theorem smear_eq {y : Nat} (hy : y < 2 ^ 64) : smear y = 2 ^ y.size - 1 := by
  have hs64 : y.size ≤ 64 := Nat.size_le.mpr hy
  apply Nat.eq_of_testBit_eq
  intro j
  rw [Nat.testBit_two_pow_sub_one]
  by_cases hj : j < y.size
  · have hy0 : y ≠ 0 := by
      intro h; subst h; rw [Nat.size_zero] at hj; omega
    simp only [hj, decide_eq_true_eq, decide_True]
    rw [smear_testBit]
    refine ⟨y.size - 1 - j, by omega, ?_⟩
    have e : j + (y.size - 1 - j) = y.size - 1 := by omega
    rw [e]; exact testBit_msb hy0
  · simp only [hj, decide_False]
    rw [← Bool.not_eq_true, smear_testBit]
    rintro ⟨d, hd, ht⟩
    have : y < 2 ^ (j + d) :=
      lt_of_lt_of_le (Nat.lt_size_self y) (Nat.pow_le_pow_right (by norm_num) (by omega))
    rw [Nat.testBit_lt_two_pow this] at ht
    exact Bool.false_ne_true ht

/-- In the non-overflowing range, `ceilToPow2` computes the least
power of two that is at least its argument, namely `2 ^ (x - 1).size`. -/
theorem ceilToPow2_eq {x : Nat} (h1 : 1 ≤ x) (h2 : x ≤ 2 ^ 63) :
    ceilToPow2 x = 2 ^ (x - 1).size := by
  unfold ceilToPow2 sizeTMod
  have hdec : (x + (2 ^ 64 - 1)) % 2 ^ 64 = x - 1 := by omega
  rw [hdec, smear_eq (by omega : x - 1 < 2 ^ 64)]
  have hs : (x - 1).size ≤ 63 := Nat.size_le.mpr (by omega)
  have hp : 1 ≤ 2 ^ (x - 1).size := Nat.one_le_two_pow
  have hlt : 2 ^ (x - 1).size ≤ 2 ^ 63 := Nat.pow_le_pow_right (by norm_num) hs
  omega

/-- Above `2 ^ 63` the increment of the saturated value wraps to 0. -/
theorem ceilToPow2_eq_zero {x : Nat} (h1 : 2 ^ 63 < x) (h2 : x ≤ 2 ^ 64) :
    ceilToPow2 x = 0 := by
  unfold ceilToPow2 sizeTMod
  have hdec : (x + (2 ^ 64 - 1)) % 2 ^ 64 = x - 1 := by omega
  rw [hdec, smear_eq (by omega : x - 1 < 2 ^ 64)]
  have hsz : (x - 1).size = 64 := by
    have ha := Nat.size_le.mpr (show x - 1 < 2 ^ 64 by omega)
    have hb := Nat.lt_size.mpr (show 2 ^ 63 ≤ x - 1 by omega)
    omega
  rw [hsz]
  omega

/-- The rounded-up capacity is at least the requested one (in the
non-overflowing range). -/
theorem ceilToPow2_ge {x : Nat} (h1 : 1 ≤ x) (h2 : x ≤ 2 ^ 63) :
    x ≤ ceilToPow2 x := by
  rw [ceilToPow2_eq h1 h2]
  have := Nat.lt_size_self (x - 1)
  omega

/-- Shape of the queue built by the constructor when the rounded-up
capacity fits within twice the block-size cap: a single block. -/
theorem mkQueue_eq_single {α : Type} [Inhabited α] (maxBlockSize maxSize : Nat)
    (h : ceilToPow2 (maxSize + 1) ≤ maxBlockSize * 2) :
    mkQueue α maxBlockSize maxSize =
      { blocks := [make_block α (ceilToPow2 (maxSize + 1))],
        frontBlock := 0, tailBlock := 0,
        largestBlockSize := ceilToPow2 (maxSize + 1),
        enqueuing := false, dequeuing := false } := by
  simp only [mkQueue]
  rw [if_neg (by omega)]

/-- Shape of the queue built by the constructor when the rounded-up
capacity exceeds twice the block-size cap: a ring of equal blocks of
the capped capacity. -/
theorem mkQueue_eq_multi {α : Type} [Inhabited α] (maxBlockSize maxSize : Nat)
    (h : maxBlockSize * 2 < ceilToPow2 (maxSize + 1)) :
    mkQueue α maxBlockSize maxSize =
      { blocks := List.replicate ((maxSize + maxBlockSize * 2 - 3) / (maxBlockSize - 1))
                    (make_block α maxBlockSize),
        frontBlock := 0, tailBlock := 0, largestBlockSize := maxBlockSize,
        enqueuing := false, dequeuing := false } := by
  simp only [mkQueue]
  rw [if_pos h]

/-- C10: a default-constructed queue uses the capacity hint 15 and one
block of capacity 16, accepts 15 `try_enqueue` calls without failure,
and a hint of 0 violates the constructor precondition
`assert(maxSize > 0)`. -/
theorem default_capacity :
    defaultMaxSize = 15 ∧
    (mkQueue Nat 512 defaultMaxSize).blocks.length = 1 ∧
    blockCapacities (mkQueue Nat 512 defaultMaxSize) = [16] ∧
    (runTryEnqueues 512 (List.range 15) (mkQueue Nat 512 defaultMaxSize)).map
        Prod.fst = some (List.replicate 15 true) ∧
    ¬ ctorPrecondition 0 :=
  ⟨rfl, by decide, by decide, by decide, by unfold ctorPrecondition; omega⟩

/-- C9: whenever `ceilToPow2 (maxSize + 1) ≤ 2 * MAX_BLOCK_SIZE`, the
constructor allocates exactly one block, of capacity
`ceilToPow2 (maxSize + 1)`, and that capacity (which may exceed the
`MAX_BLOCK_SIZE` cap) becomes the initial watermark. -/
theorem single_block_construction {α : Type} [Inhabited α]
    (maxBlockSize maxSize : Nat) (h1 : 1 ≤ maxSize)
    (h2 : ceilToPow2 (maxSize + 1) ≤ 2 * maxBlockSize) :
    (mkQueue α maxBlockSize maxSize).blocks.length = 1 ∧
    blockCapacities (mkQueue α maxBlockSize maxSize) = [ceilToPow2 (maxSize + 1)] ∧
    (mkQueue α maxBlockSize maxSize).largestBlockSize = ceilToPow2 (maxSize + 1) := by
  rw [mkQueue_eq_single maxBlockSize maxSize (by omega)]
  refine ⟨rfl, ?_, rfl⟩
  unfold blockCapacities make_block
  simp

/-- Witness for C9 at the hint 600 with the default cap 512: the single
block has capacity `ceilToPow2 601 = 1024`, exceeding the cap. -/
theorem single_block_construction_witness :
    (1 ≤ 600 ∧ ceilToPow2 (600 + 1) ≤ 2 * 512 ∧ 512 < ceilToPow2 (600 + 1)) ∧
    ((mkQueue Nat 512 600).blocks.length = 1 ∧
     blockCapacities (mkQueue Nat 512 600) = [ceilToPow2 (600 + 1)] ∧
     (mkQueue Nat 512 600).largestBlockSize = ceilToPow2 (600 + 1)) :=
  ⟨⟨by omega, by decide, by decide⟩,
   single_block_construction 512 600 (by omega) (by decide)⟩

/-- C3 counterexample: at `c3State` (cap `MAX_BLOCK_SIZE = 4`,
watermark 8, single completely full block whose ring successor is the
front block) growth is forced; the freshly allocated block has
capacity 8, but the formula claimed — `max(largestBlockSize,
2 × largestBlockSize)` capped at the per-block maximum 4 — demands
`min (max 8 16) 4 = 4`.  The code only doubles below the cap and never
shrinks an over-cap watermark back to the cap. -/
theorem growth_sizing_counterexample :
    (((c3State.blocks.getD c3State.tailBlock default).tail + 1) &&&
        (c3State.blocks.getD c3State.tailBlock default).sizeMask) =
      (c3State.blocks.getD c3State.tailBlock default).front ∧
    (c3State.tailBlock + 1) % c3State.blocks.length = c3State.frontBlock ∧
    c3State.largestBlockSize = 8 ∧
    enqueue 4 true 99 c3State = Except.ok (true, c3After) ∧
    c3After.tailBlock = 1 ∧
    blockCapacities c3After = [8, 8] ∧
    ¬ ((c3After.blocks.getD c3After.tailBlock default).data.length =
        min (max c3State.largestBlockSize (2 * c3State.largestBlockSize)) 4) :=
  ⟨by decide, by decide, by decide, by decide, by decide, by decide, by decide⟩

/-- C5 counterexample: at `c5State` the front block has been fully
drained (three free usable slots, `hasRoomAnywhere` is true), but the
tail block is full and its ring successor is the front block, so
`try_enqueue` returns false even though room exists in the ring. -/
theorem try_enqueue_false_with_room :
    (try_enqueue 4 (77 : Nat) c5State).map Prod.fst = Except.ok false ∧
    hasRoomAnywhere c5State = true :=
  ⟨by decide, by decide⟩

/-- C7: `pop()` is `try_dequeue` with the value discarded: on every
queue state the two return the same boolean (a `some` result of
`try_dequeue` meaning true) and produce identical resulting states —
same front indices, same front block, same elements — including the
reentrancy-error case. -/
theorem pop_eq_try_dequeue {α : Type} [Inhabited α] (q : ConcurrentQueue α) :
    pop q = (try_dequeue q).map (fun r => (r.1.isSome, r.2)) := by
  unfold pop try_dequeue
  by_cases h0 : q.dequeuing = true
  · simp only [if_pos h0]; rfl
  · simp only [if_neg h0]
    split
    · rfl
    · split
      · rfl
      · split
        · rfl
        · rfl

/-- C8: reentrancy detection: an operation entered while its own
role's guard flag is already set — as it is for the whole duration of
an in-progress call of that role, so in particular when re-entered
from an element constructor or destructor invoked by that call — fails
with the fatal guard error, and the state it reports carries exactly
the queue as it was at entry: no element state is modified. -/
theorem reentrancy_guard_detects {α : Type} [Inhabited α]
    (maxBlockSize : Nat) (allocOk : Bool) (v : α) (q : ConcurrentQueue α) :
    (q.enqueuing = true →
       try_enqueue maxBlockSize v q = Except.error q ∧
       enqueue maxBlockSize allocOk v q = Except.error q) ∧
    (q.dequeuing = true →
       try_dequeue q = Except.error q ∧ pop q = Except.error q ∧
       peek q = Except.error q) := by
  constructor
  · intro h
    unfold try_enqueue enqueue
    rw [if_pos h, if_pos h]
    exact ⟨rfl, rfl⟩
  · intro h
    unfold try_dequeue pop peek
    rw [if_pos h, if_pos h, if_pos h]
    exact ⟨rfl, rfl, rfl⟩

/-- Witness for C8: at the mid-call state `c8State` (both guard flags
set) every public operation raises the guard error and reports the
state unchanged. -/
theorem reentrancy_guard_detects_witness :
    c8State.enqueuing = true ∧ c8State.dequeuing = true ∧
    try_enqueue 512 (0 : Nat) c8State = Except.error c8State ∧
    enqueue 512 true (0 : Nat) c8State = Except.error c8State ∧
    try_dequeue c8State = Except.error c8State ∧
    pop c8State = Except.error c8State ∧
    peek c8State = Except.error c8State := by
  have h := reentrancy_guard_detects 512 true (0 : Nat) c8State
  have h1 := h.1 (by decide)
  have h2 := h.2 (by decide)
  exact ⟨by decide, by decide, h1.1, h1.2, h2.1, h2.2.1, h2.2.2⟩

/-- Resident-count formula without the modulo: for in-range indices
the count is the plain circular distance. -/
theorem count_mod_eq {s f t : Nat} (hf : f < s) (ht : t < s) :
    (s + t - f) % s = if f ≤ t then t - f else s + t - f := by
  by_cases h : f ≤ t
  · rw [if_pos h]
    have e : s + t - f = s + (t - f) := by omega
    rw [e, Nat.add_mod_left]
    exact Nat.mod_eq_of_lt (by omega)
  · rw [if_neg h]
    exact Nat.mod_eq_of_lt (by omega)

/-- Incrementing an in-range index wraps exactly at the capacity. -/
theorem succ_mod_eq {s t : Nat} (ht : t < s) :
    (t + 1) % s = if t + 1 = s then 0 else t + 1 := by
  by_cases h : t + 1 = s
  · rw [if_pos h, h, Nat.mod_self]
  · rw [if_neg h]; exact Nat.mod_eq_of_lt (by omega)

/-- If the cached front never under-counts the block (the shadow
dominance invariant) and the block is full against the true front, it
is also full against the cached front. -/
theorem full_shadow_arith {s f t lf : Nat} (hf : f < s) (ht : t < s) (hlf : lf < s)
    (hshadow : (s + t - f) % s ≤ (s + t - lf) % s)
    (hfull : (t + 1) % s = f) : (t + 1) % s = lf := by
  rw [count_mod_eq hf ht, count_mod_eq hlf ht] at hshadow
  rw [succ_mod_eq ht] at hfull ⊢
  split_ifs at * <;> omega

/-- Block-level version of `full_shadow_arith`, phrased through the
bit-mask arithmetic the code uses. -/
theorem block_full_shadow {α : Type} (b : Block α)
    (h1 : b.front ≤ b.sizeMask) (h2 : b.tail ≤ b.sizeMask) (h3 : b.localFront ≤ b.sizeMask)
    (hsh : ((b.sizeMask + 1) + b.tail - b.front) % (b.sizeMask + 1) ≤
           ((b.sizeMask + 1) + b.tail - b.localFront) % (b.sizeMask + 1))
    (u : Nat) (hmask : b.sizeMask = 2 ^ u - 1)
    (hfull : (b.tail + 1) &&& b.sizeMask = b.front) :
    (b.tail + 1) &&& b.sizeMask = b.localFront := by
  have hpow : (1:Nat) ≤ 2 ^ u := Nat.one_le_two_pow
  have hs : b.sizeMask + 1 = 2 ^ u := by omega
  have hand : ∀ x : Nat, x &&& b.sizeMask = x % (b.sizeMask + 1) := by
    intro x
    rw [hmask]
    have e : (2:Nat) ^ u - 1 + 1 = 2 ^ u := by omega
    rw [e, Nat.and_pow_two_sub_one_eq_mod]
  rw [hand] at hfull ⊢
  exact full_shadow_arith (by omega) (by omega) (by omega) hsh hfull

/-- The enqueue body returns false exactly when the tail block is full
per both the cached and the freshly read front, the ring successor of
the tail block is the front block, and allocation is forbidden or
fails. -/
theorem inner_enqueue_ok_false_iff {α : Type} [Inhabited α]
    (maxBlockSize : Nat) (canAlloc allocOk : Bool) (v : α) (q : ConcurrentQueue α) :
    (inner_enqueue maxBlockSize canAlloc allocOk v q).ok = false ↔
      (((q.blocks.getD q.tailBlock default).tail + 1) &&&
          (q.blocks.getD q.tailBlock default).sizeMask =
        (q.blocks.getD q.tailBlock default).localFront ∧
       ((q.blocks.getD q.tailBlock default).tail + 1) &&&
          (q.blocks.getD q.tailBlock default).sizeMask =
        (q.blocks.getD q.tailBlock default).front ∧
       (q.tailBlock + 1) % q.blocks.length = q.frontBlock ∧
       (canAlloc = false ∨ allocOk = false)) := by
  unfold inner_enqueue
  by_cases hc1 : (q.blocks.getD q.tailBlock default).tail + 1 &&&
      (q.blocks.getD q.tailBlock default).sizeMask =
      (q.blocks.getD q.tailBlock default).localFront
  · simp only [hc1, ne_eq, eq_self_iff_true, not_true_eq_false, if_false, ite_false]
    by_cases hc2 : (q.blocks.getD q.tailBlock default).localFront =
        (q.blocks.getD q.tailBlock default).front
    · simp only [hc2, eq_self_iff_true, not_true_eq_false, if_false, ite_false, true_and]
      by_cases hc3 : (q.tailBlock + 1) % q.blocks.length = q.frontBlock
      · simp only [hc3, eq_self_iff_true, not_true_eq_false, if_false, ite_false, true_and]
        cases canAlloc
        · simp
        · cases allocOk <;> simp
      · simp only [hc3, not_false_eq_true, if_true, ite_true]
        simp [hc3]
    · simp only [hc2, not_false_eq_true, if_true, ite_true]
      simp [hc2]
  · simp only [ne_eq, hc1, not_false_eq_true, if_true, ite_true]
    simp [hc1]

/-- The enqueue body reaches the `make_block` call site exactly when
the tail block is full (cached and fresh front agree on fullness), no
free block exists ahead, and allocation is permitted. -/
theorem inner_enqueue_allocated_iff {α : Type} [Inhabited α]
    (maxBlockSize : Nat) (canAlloc allocOk : Bool) (v : α) (q : ConcurrentQueue α) :
    (inner_enqueue maxBlockSize canAlloc allocOk v q).allocated = true ↔
      (((q.blocks.getD q.tailBlock default).tail + 1) &&&
          (q.blocks.getD q.tailBlock default).sizeMask =
        (q.blocks.getD q.tailBlock default).localFront ∧
       ((q.blocks.getD q.tailBlock default).tail + 1) &&&
          (q.blocks.getD q.tailBlock default).sizeMask =
        (q.blocks.getD q.tailBlock default).front ∧
       (q.tailBlock + 1) % q.blocks.length = q.frontBlock ∧
       canAlloc = true) := by
  unfold inner_enqueue
  by_cases hc1 : (q.blocks.getD q.tailBlock default).tail + 1 &&&
      (q.blocks.getD q.tailBlock default).sizeMask =
      (q.blocks.getD q.tailBlock default).localFront
  · simp only [hc1, ne_eq, eq_self_iff_true, not_true_eq_false, if_false, ite_false]
    by_cases hc2 : (q.blocks.getD q.tailBlock default).localFront =
        (q.blocks.getD q.tailBlock default).front
    · simp only [hc2, eq_self_iff_true, not_true_eq_false, if_false, ite_false, true_and]
      by_cases hc3 : (q.tailBlock + 1) % q.blocks.length = q.frontBlock
      · simp only [hc3, eq_self_iff_true, not_true_eq_false, if_false, ite_false, true_and]
        cases canAlloc
        · simp
        · cases allocOk <;> simp
      · simp only [hc3, not_false_eq_true, if_true, ite_true]
        simp [hc3]
    · simp only [hc2, not_false_eq_true, if_true, ite_true]
      simp [hc2]
  · simp only [ne_eq, hc1, not_false_eq_true, if_true, ite_true]
    simp [hc1]

/-- When the enqueue body returns false, the only state change is the
refresh of the tail block's cached front from its true front. -/
theorem inner_enqueue_fail_state {α : Type} [Inhabited α]
    (maxBlockSize : Nat) (canAlloc allocOk : Bool) (v : α) (q : ConcurrentQueue α)
    (h : (inner_enqueue maxBlockSize canAlloc allocOk v q).ok = false) :
    (inner_enqueue maxBlockSize canAlloc allocOk v q).q =
      ConcurrentQueue.mk
        (q.blocks.set q.tailBlock
          { q.blocks.getD q.tailBlock default with
              localFront := (q.blocks.getD q.tailBlock default).front })
        q.frontBlock q.tailBlock q.largestBlockSize q.enqueuing q.dequeuing := by
  unfold inner_enqueue at h ⊢
  by_cases hc1 : (q.blocks.getD q.tailBlock default).tail + 1 &&&
      (q.blocks.getD q.tailBlock default).sizeMask =
      (q.blocks.getD q.tailBlock default).localFront
  · simp only [hc1, ne_eq, eq_self_iff_true, not_true_eq_false, if_false, ite_false] at h ⊢
    by_cases hc2 : (q.blocks.getD q.tailBlock default).localFront =
        (q.blocks.getD q.tailBlock default).front
    · simp only [hc2, eq_self_iff_true, not_true_eq_false, if_false, ite_false] at h ⊢
      by_cases hc3 : (q.tailBlock + 1) % q.blocks.length = q.frontBlock
      · simp only [hc3, eq_self_iff_true, not_true_eq_false, if_false, ite_false] at h ⊢
        cases canAlloc
        · simp only [ite_false, Bool.false_eq_true, if_false]
        · cases allocOk
          · simp only [ite_true, ite_false, Bool.false_eq_true, if_false, if_true]
          · simp at h
      · simp only [hc3, not_false_eq_true, if_true, ite_true] at h
        simp at h
    · simp only [hc2, not_false_eq_true, if_true, ite_true] at h
      simp at h
  · simp only [ne_eq, hc1, not_false_eq_true, if_true, ite_true] at h
    simp at h

/-- Updating one list entry does not change a projected image when the
projection of the new entry agrees with that of the old one. -/
theorem map_set_eq_of {β γ : Type} (f : β → γ) (l : List β) (i : Nat) (b d : β)
    (h : f b = f (l.getD i d)) : (l.set i b).map f = l.map f := by
  by_cases hi : i < l.length
  · apply List.ext_getElem?
    intro j
    by_cases hj : i = j
    · subst hj
      rw [List.getElem?_map, List.getElem?_map, List.getElem?_set_self hi,
          List.getElem?_eq_getElem hi]
      simp only [Option.map_some']
      rw [h]
      congr 2
      simp [List.getD_eq_getElem?_getD, List.getElem?_eq_getElem hi]
    · simp [List.getElem?_map, List.getElem?_set_ne hj]
  · have hle : l.length ≤ i := by omega
    rw [@List.set_eq_of_length_le _ l i hle b]

/-- Two-update version of `map_set_eq_of`. -/
theorem map_set_set_eq_of {β γ : Type} (f : β → γ) (l : List β) (i j : Nat) (b c d : β)
    (hb : f b = f (l.getD i d)) (hc : f c = f ((l.set i b).getD j d)) :
    ((l.set i b).set j c).map f = l.map f := by
  rw [map_set_eq_of f (l.set i b) j c d hc, map_set_eq_of f l i b d hb]

/-- The non-allocating enqueue body never changes the ring's block
capacities and never reaches the allocation site. -/
theorem inner_enqueue_noalloc_capacities {α : Type} [Inhabited α]
    (maxBlockSize : Nat) (allocOk : Bool) (v : α) (q : ConcurrentQueue α) :
    blockCapacities (inner_enqueue maxBlockSize false allocOk v q).q =
      blockCapacities q ∧
    (inner_enqueue maxBlockSize false allocOk v q).allocated = false := by
  unfold inner_enqueue blockCapacities
  by_cases hc1 : (q.blocks.getD q.tailBlock default).tail + 1 &&&
      (q.blocks.getD q.tailBlock default).sizeMask =
      (q.blocks.getD q.tailBlock default).localFront
  · simp only [hc1, ne_eq, eq_self_iff_true, not_true_eq_false, if_false, ite_false]
    by_cases hc2 : (q.blocks.getD q.tailBlock default).localFront =
        (q.blocks.getD q.tailBlock default).front
    · simp only [hc2, eq_self_iff_true, not_true_eq_false, if_false, ite_false]
      by_cases hc3 : (q.tailBlock + 1) % q.blocks.length = q.frontBlock
      · simp only [hc3, eq_self_iff_true, not_true_eq_false, if_false, ite_false,
          Bool.false_eq_true, if_true, ite_true]
        refine ⟨?_, by trivial⟩
        refine map_set_eq_of _ _ _ _ default ?_
        rfl
      · simp only [hc3, not_false_eq_true, if_true, ite_true]
        refine ⟨?_, by trivial⟩
        refine map_set_set_eq_of _ _ _ _ _ _ default ?_ ?_
        · rfl
        · simp [List.length_set]
    · simp only [hc2, not_false_eq_true, if_true, ite_true]
      refine ⟨?_, by trivial⟩
      refine map_set_eq_of _ _ _ _ default ?_
      simp [List.length_set]
  · simp only [ne_eq, hc1, not_false_eq_true, if_true, ite_true]
    refine ⟨?_, by trivial⟩
    refine map_set_eq_of _ _ _ _ default ?_
    simp [List.length_set]

/-- Unfolding of `try_enqueue` past its reentrancy guard. -/
theorem try_enqueue_eq {α : Type} [Inhabited α] (maxBlockSize : Nat) (v : α)
    (q : ConcurrentQueue α) (hg : q.enqueuing = false) :
    try_enqueue maxBlockSize v q =
      Except.ok ((inner_enqueue maxBlockSize false false v { q with enqueuing := true }).ok,
        { (inner_enqueue maxBlockSize false false v { q with enqueuing := true }).q
            with enqueuing := false }) := by
  unfold try_enqueue
  rw [if_neg (by simp [hg])]

/-- Unfolding of `enqueue` past its reentrancy guard. -/
theorem enqueue_eq {α : Type} [Inhabited α] (maxBlockSize : Nat) (allocOk : Bool) (v : α)
    (q : ConcurrentQueue α) (hg : q.enqueuing = false) :
    enqueue maxBlockSize allocOk v q =
      Except.ok ((inner_enqueue maxBlockSize true allocOk v { q with enqueuing := true }).ok,
        { (inner_enqueue maxBlockSize true allocOk v { q with enqueuing := true }).q
            with enqueuing := false }) := by
  unfold enqueue
  rw [if_neg (by simp [hg])]

/-- A defaulted in-range lookup is a member of the list. -/
theorem getD_mem {β : Type} (l : List β) (i : Nat) (d : β) (h : i < l.length) :
    l.getD i d ∈ l := by
  rw [List.getD_eq_getElem?_getD, List.getElem?_eq_getElem h]
  simp only [Option.getD_some]
  exact List.get_mem l i h

/-- C4: on every well-formed queue state satisfying the producer cache
invariant, a growable `enqueue` returns false only when the needed
block allocation fails, and in that case every observable — resident
elements, block-ring capacities, watermark, both block pointers — is
exactly as before the call; and the call reaches the allocation site
if and only if the tail block is full and no free block exists in the
ring (its successor is the front block). -/
theorem enqueue_failure_atomicity {α : Type} [Inhabited α] (maxBlockSize : Nat)
    (allocOk : Bool) (v : α) (q : ConcurrentQueue α)
    (hg : q.enqueuing = false) (hwf : WF q) (hsh : ShadowInv q) :
    (∀ q', enqueue maxBlockSize allocOk v q = Except.ok (false, q') →
       allocOk = false ∧
       residentBlocks q' = residentBlocks q ∧
       blockCapacities q' = blockCapacities q ∧
       q'.largestBlockSize = q.largestBlockSize ∧
       q'.frontBlock = q.frontBlock ∧ q'.tailBlock = q.tailBlock) ∧
    ((inner_enqueue maxBlockSize true allocOk v { q with enqueuing := true }).allocated
        = true ↔
      (((q.blocks.getD q.tailBlock default).tail + 1) &&&
          (q.blocks.getD q.tailBlock default).sizeMask =
        (q.blocks.getD q.tailBlock default).front ∧
       (q.tailBlock + 1) % q.blocks.length = q.frontBlock)) := by
  have he := enqueue_eq maxBlockSize allocOk v q hg
  have hlt : q.tailBlock < q.blocks.length := hwf.2.2.1
  have hbwf := hwf.2.2.2.1 _ (getD_mem q.blocks q.tailBlock default hlt)
  obtain ⟨hbf, hbt, hblf, hblt, ⟨u, hu, hmask⟩, hdata⟩ := hbwf
  have hshadow := hsh _ (getD_mem q.blocks q.tailBlock default hlt)
  have hbridge : ((q.blocks.getD q.tailBlock default).tail + 1) &&&
        (q.blocks.getD q.tailBlock default).sizeMask =
        (q.blocks.getD q.tailBlock default).front →
      ((q.blocks.getD q.tailBlock default).tail + 1) &&&
        (q.blocks.getD q.tailBlock default).sizeMask =
        (q.blocks.getD q.tailBlock default).localFront := by
    intro hfull
    exact block_full_shadow _ hbf hbt hblf hshadow u hmask hfull
  constructor
  · intro q' hbq
    rw [he] at hbq
    have hpair := Except.ok.inj hbq
    have hok : (inner_enqueue maxBlockSize true allocOk v
        { q with enqueuing := true }).ok = false := (Prod.mk.injEq _ _ _ _ ▸ hpair).1
    have hq' : q' = { (inner_enqueue maxBlockSize true allocOk v
        { q with enqueuing := true }).q with enqueuing := false } :=
      (Prod.mk.injEq _ _ _ _ ▸ hpair).2.symm
    have hcond := (inner_enqueue_ok_false_iff maxBlockSize true allocOk v
      { q with enqueuing := true }).mp hok
    have hao : allocOk = false := by
      rcases hcond.2.2.2 with h | h
      · exact absurd h (by simp)
      · exact h
    have hstate := inner_enqueue_fail_state maxBlockSize true allocOk v
      { q with enqueuing := true } hok
    refine ⟨hao, ?_, ?_, ?_, ?_, ?_⟩
    · rw [hq', hstate]
      unfold residentBlocks
      refine map_set_eq_of _ _ _ _ default ?_
      rfl
    · rw [hq', hstate]
      unfold blockCapacities
      refine map_set_eq_of _ _ _ _ default ?_
      rfl
    · rw [hq', hstate]
    · rw [hq', hstate]
    · rw [hq', hstate]
  · rw [inner_enqueue_allocated_iff]
    constructor
    · intro hc
      exact ⟨hc.2.1, hc.2.2.1⟩
    · intro hc
      exact ⟨hbridge hc.1, hc.1, hc.2, rfl⟩

/-- C3 (amended): whenever growable `enqueue` must grow the ring (tail
block full per cache and fresh front, and the tail block's ring
successor is the front block), it succeeds, allocating a block of
capacity `largestBlockSize` if that is already at least
`MAX_BLOCK_SIZE` and `2 * largestBlockSize` otherwise (the doubling is
capped only in the sense that it stops below the cap; an over-cap
watermark is reused as is), splices it immediately after the tail
block preserving ring closure, advances `tailBlock` to it, and updates
the watermark to the new block's capacity. -/
theorem growth_sizing {α : Type} [Inhabited α] (maxBlockSize : Nat) (v : α)
    (q : ConcurrentQueue α) (hg : q.enqueuing = false)
    (hfs : ((q.blocks.getD q.tailBlock default).tail + 1) &&&
        (q.blocks.getD q.tailBlock default).sizeMask =
      (q.blocks.getD q.tailBlock default).localFront)
    (hfr : ((q.blocks.getD q.tailBlock default).tail + 1) &&&
        (q.blocks.getD q.tailBlock default).sizeMask =
      (q.blocks.getD q.tailBlock default).front)
    (hnf : (q.tailBlock + 1) % q.blocks.length = q.frontBlock) :
    enqueue maxBlockSize true v q = Except.ok (true,
      ConcurrentQueue.mk
        ((q.blocks.set q.tailBlock
            { q.blocks.getD q.tailBlock default with
                localFront := (q.blocks.getD q.tailBlock default).front }).insertIdx
          (q.tailBlock + 1)
          { make_block α (if maxBlockSize ≤ q.largestBlockSize then q.largestBlockSize
                          else q.largestBlockSize * 2) with
              data := (List.replicate (if maxBlockSize ≤ q.largestBlockSize
                          then q.largestBlockSize
                          else q.largestBlockSize * 2) (default : α)).set 0 v,
              tail := 1, localTail := 1 })
        (if q.tailBlock < q.frontBlock then q.frontBlock + 1 else q.frontBlock)
        (q.tailBlock + 1)
        (if maxBlockSize ≤ q.largestBlockSize then q.largestBlockSize
         else q.largestBlockSize * 2)
        false q.dequeuing) := by
  rw [enqueue_eq maxBlockSize true v q hg]
  unfold inner_enqueue
  have hlf : (q.blocks.getD q.tailBlock default).localFront =
      (q.blocks.getD q.tailBlock default).front := hfs.symm.trans hfr
  simp only [hfs, hlf, hnf, ne_eq, eq_self_iff_true, not_true_eq_false, if_false,
    ite_false, ite_true, if_true]

/-- Witness for C3 (amended) at the concrete full single-block state
`c3State` with over-cap watermark 8 and cap 4: the grown block has
capacity 8. -/
theorem growth_sizing_witness :
    enqueue 4 true 99 c3State = Except.ok (true,
      ConcurrentQueue.mk
        ((c3State.blocks.set c3State.tailBlock
            { c3State.blocks.getD c3State.tailBlock default with
                localFront := (c3State.blocks.getD c3State.tailBlock default).front }).insertIdx
          (c3State.tailBlock + 1)
          { make_block Nat (if 4 ≤ c3State.largestBlockSize then c3State.largestBlockSize
                          else c3State.largestBlockSize * 2) with
              data := (List.replicate (if 4 ≤ c3State.largestBlockSize
                          then c3State.largestBlockSize
                          else c3State.largestBlockSize * 2) (default : Nat)).set 0 99,
              tail := 1, localTail := 1 })
        (if c3State.tailBlock < c3State.frontBlock then c3State.frontBlock + 1
         else c3State.frontBlock)
        (c3State.tailBlock + 1)
        (if 4 ≤ c3State.largestBlockSize then c3State.largestBlockSize
         else c3State.largestBlockSize * 2)
        false c3State.dequeuing) :=
  growth_sizing 4 99 c3State (by decide) (by decide) (by decide) (by decide)

/-- Witness for C4 at the full state `c3State` with a failing
allocator: the enqueue fails and every observable is preserved. -/
theorem enqueue_failure_atomicity_witness :
    (∀ q', enqueue 4 false 99 c3State = Except.ok (false, q') →
       false = false ∧
       residentBlocks q' = residentBlocks c3State ∧
       blockCapacities q' = blockCapacities c3State ∧
       q'.largestBlockSize = c3State.largestBlockSize ∧
       q'.frontBlock = c3State.frontBlock ∧ q'.tailBlock = c3State.tailBlock) ∧
    ((inner_enqueue 4 true false 99 { c3State with enqueuing := true }).allocated
        = true ↔
      (((c3State.blocks.getD c3State.tailBlock default).tail + 1) &&&
          (c3State.blocks.getD c3State.tailBlock default).sizeMask =
        (c3State.blocks.getD c3State.tailBlock default).front ∧
       (c3State.tailBlock + 1) % c3State.blocks.length = c3State.frontBlock)) :=
  enqueue_failure_atomicity 4 false 99 c3State (by decide) (by decide) (by decide)

/-- The resident list has exactly the index-derived count of entries. -/
theorem Block.residentList_length {α : Type} [Inhabited α] (b : Block α) :
    (Block.residentList b).length = Block.residentCount b := by
  unfold Block.residentList
  rw [List.length_map, List.length_range]

/-- One ring walk step of `size_approx` counts exactly the resident
elements of that block: the wrapped `size_t` subtraction masked by
`sizeMask` equals the circular distance from `front` to `tail`. -/
theorem size_approx_term {α : Type} (b : Block α) (u : Nat) (hu : u ≤ 64)
    (hmask : b.sizeMask = 2 ^ u - 1) (hf : b.front ≤ b.sizeMask)
    (ht : b.tail ≤ b.sizeMask) :
    ((sizeTMod + b.tail - b.front) % sizeTMod) &&& b.sizeMask =
      Block.residentCount b := by
  unfold Block.residentCount sizeTMod
  have hple : (2:Nat) ^ u ≤ 2 ^ 64 := Nat.pow_le_pow_right (by norm_num) hu
  have hppos : (1:Nat) ≤ 2 ^ u := Nat.one_le_two_pow
  have hs : b.sizeMask + 1 = 2 ^ u := by omega
  rw [hmask, Nat.and_pow_two_sub_one_eq_mod]
  rw [Nat.mod_mod_of_dvd _ (Nat.pow_dvd_pow 2 hu)]
  have e0 : (2:Nat) ^ u - 1 + 1 = 2 ^ u := by omega
  rw [e0]
  have hdvd : (2:Nat) ^ u ∣ 2 ^ 64 - 2 ^ u := by
    exact Nat.dvd_sub' (Nat.pow_dvd_pow 2 hu) dvd_rfl
  obtain ⟨c, hc⟩ := hdvd
  have e : 2 ^ 64 + b.tail - b.front = 2 ^ u + b.tail - b.front + 2 ^ u * c := by
    omega
  rw [e, Nat.add_mul_mod_self_left]

/-- Pointwise `f + 1 ≤ g` bounds the mapped sums with the length. -/
theorem sum_succ_le {β : Type} (l : List β) (f g : β → Nat)
    (h : ∀ b ∈ l, f b + 1 ≤ g b) : (l.map f).sum + l.length ≤ (l.map g).sum := by
  induction l with
  | nil => simp
  | cons x xs ih =>
    simp only [List.map_cons, List.sum_cons, List.length_cons]
    have h1 := h x (by simp)
    have h2 := ih (fun b hb => h b (by simp [hb]))
    omega

/-- On well-formed states, `size_approx` plus the block count is at
most the total allocated capacity (each block wastes one slot). -/
theorem size_approx_bound {α : Type} [Inhabited α] (q : ConcurrentQueue α)
    (hwf : WF q) : size_approx q + q.blocks.length ≤ totalCapacity q := by
  unfold size_approx totalCapacity
  apply sum_succ_le
  intro b hb
  obtain ⟨h1, h2, h3, h4, ⟨u, hu, hmask⟩, hdata⟩ := hwf.2.2.2.1 b hb
  have := Nat.and_le_right
    (n := (sizeTMod + b.tail - b.front) % sizeTMod) (m := b.sizeMask)
  omega

/-- On well-formed states, `size_approx` equals the exact number of
resident elements. -/
theorem size_approx_exact_of_WF {α : Type} [Inhabited α] (q : ConcurrentQueue α)
    (hwf : WF q) : size_approx q = residentCount q := by
  unfold size_approx residentCount
  congr 1
  apply List.map_congr_left
  intro b hb
  obtain ⟨h1, h2, h3, h4, ⟨u, hu, hmask⟩, hdata⟩ := hwf.2.2.2.1 b hb
  rw [Block.residentList_length]
  exact size_approx_term b u (by omega) hmask h1 h2

/-- A block rebuilt with in-range indices and same-capacity storage
over an existing well-formed block is well formed. -/
theorem BlockWF_mk {α : Type} (b : Block α) (hwf : BlockWF b) (f lt t lf : Nat)
    (d : List α) (hf : f ≤ b.sizeMask) (hlt : lt ≤ b.sizeMask) (ht : t ≤ b.sizeMask)
    (hlf : lf ≤ b.sizeMask) (hd : d.length = b.data.length) :
    BlockWF (Block.mk f lt t lf d b.sizeMask) := by
  obtain ⟨_, _, _, _, hex, hlen⟩ := hwf
  exact ⟨hf, ht, hlf, hlt, hex, by rw [hd, hlen]⟩

/-- Setting one well-formed block keeps the all-blocks invariant. -/
theorem blocksWF_set {α : Type} {l : List (Block α)} {i : Nat} {x : Block α}
    (h : ∀ b ∈ l, BlockWF b) (hx : BlockWF x) : ∀ b ∈ l.set i x, BlockWF b := by
  intro b hb
  rcases List.mem_or_eq_of_mem_set hb with hm | hm
  · exact h b hm
  · rw [hm]; exact hx

/-- Introduction form of the queue well-formedness invariant. -/
theorem WF_mk {α : Type} (blocks : List (Block α)) (fi ti l : Nat) (e d : Bool)
    (h1 : 0 < blocks.length) (h2 : fi < blocks.length) (h3 : ti < blocks.length)
    (h4 : ∀ b ∈ blocks, BlockWF b) (h5 : ∃ t, 1 ≤ t ∧ t ≤ 63 ∧ l = 2 ^ t) :
    WF (ConcurrentQueue.mk blocks fi ti l e d) := ⟨h1, h2, h3, h4, h5⟩

/-- The freshly grown block (capacity a power of two, one element
constructed into slot 0, `tail = localTail = 1`) is well formed. -/
theorem make_block_WF {α : Type} [Inhabited α] (c t : Nat) (h1 : 1 ≤ t) (h2 : t ≤ 63)
    (hc : c = 2 ^ t) (v : α) :
    BlockWF ({ make_block α c with
               data := (List.replicate c (default : α)).set 0 v,
               tail := 1, localTail := 1 } : Block α) := by
  subst hc
  have hp1 : (2:Nat) ≤ 2 ^ t := by
    calc (2:Nat) = 2 ^ 1 := by norm_num
    _ ≤ 2 ^ t := Nat.pow_le_pow_right (by norm_num) h1
  have hple : (2:Nat) ^ t ≤ 2 ^ 63 := Nat.pow_le_pow_right (by norm_num) h2
  have h63 : (2:Nat) ^ 63 < 2 ^ 64 := by norm_num
  have hmaskv : (2 ^ t + (sizeTMod - 1)) % sizeTMod = 2 ^ t - 1 := by
    unfold sizeTMod
    omega
  unfold make_block BlockWF
  simp only [hmaskv]
  refine ⟨by omega, by omega, by omega, by omega, ⟨t, by omega, rfl⟩, ?_⟩
  simp only [List.length_set, List.length_replicate]
  omega

/-- The enqueue body preserves well-formedness, for any power-of-two
template cap in the supported range and any allocation outcome. -/
theorem inner_enqueue_WF {α : Type} [Inhabited α] (maxBlockSize e : Nat)
    (canAlloc allocOk : Bool) (v : α) (q : ConcurrentQueue α)
    (he1 : 1 ≤ e) (he2 : e ≤ 62) (hm : maxBlockSize = 2 ^ e)
    (hwf : WF q) : WF (inner_enqueue maxBlockSize canAlloc allocOk v q).q := by
  obtain ⟨hn, hfb, htb, hall, hwm⟩ := hwf
  have htbwf := hall _ (getD_mem q.blocks q.tailBlock default htb)
  obtain ⟨hf, ht, hlf, hlt2, hex, hlen⟩ := htbwf
  unfold inner_enqueue
  by_cases hc1 : (q.blocks.getD q.tailBlock default).tail + 1 &&&
      (q.blocks.getD q.tailBlock default).sizeMask =
      (q.blocks.getD q.tailBlock default).localFront
  case neg =>
    rw [if_pos hc1]
    exact WF_mk _ _ _ _ _ _ (by simpa using hn) (by simpa using hfb)
      (by simpa using htb)
      (blocksWF_set hall (BlockWF_mk _ ⟨hf, ht, hlf, hlt2, hex, hlen⟩ _ _ _ _ _
        hf hlt2 Nat.and_le_right hlf (by simp [List.length_set]))) hwm
  case pos =>
    rw [if_neg (not_not_intro hc1)]
    by_cases hc2 : (q.blocks.getD q.tailBlock default).tail + 1 &&&
        (q.blocks.getD q.tailBlock default).sizeMask =
        (q.blocks.getD q.tailBlock default).front
    case neg =>
      rw [if_pos hc2]
      exact WF_mk _ _ _ _ _ _ (by simpa using hn) (by simpa using hfb)
        (by simpa using htb)
        (blocksWF_set hall (BlockWF_mk _ ⟨hf, ht, hlf, hlt2, hex, hlen⟩ _ _ _ _ _
          hf hlt2 Nat.and_le_right hf (by simp [List.length_set]))) hwm
    case pos =>
      rw [if_neg (not_not_intro hc2)]
      have hb0 : BlockWF (Block.mk (q.blocks.getD q.tailBlock default).front
          (q.blocks.getD q.tailBlock default).localTail
          (q.blocks.getD q.tailBlock default).tail
          (q.blocks.getD q.tailBlock default).front
          (q.blocks.getD q.tailBlock default).data
          (q.blocks.getD q.tailBlock default).sizeMask) :=
        BlockWF_mk _ ⟨hf, ht, hlf, hlt2, hex, hlen⟩ _ _ _ _ _ hf hlt2 ht hf rfl
      by_cases hc3 : (q.tailBlock + 1) % q.blocks.length = q.frontBlock
      case neg =>
        rw [if_pos hc3]
        have hnext : (q.tailBlock + 1) % q.blocks.length < q.blocks.length :=
          Nat.mod_lt _ (by omega)
        have hall0 : ∀ b ∈ q.blocks.set q.tailBlock (Block.mk
            (q.blocks.getD q.tailBlock default).front
            (q.blocks.getD q.tailBlock default).localTail
            (q.blocks.getD q.tailBlock default).tail
            (q.blocks.getD q.tailBlock default).front
            (q.blocks.getD q.tailBlock default).data
            (q.blocks.getD q.tailBlock default).sizeMask), BlockWF b :=
          blocksWF_set hall hb0
        have hnbwf := hall0 _ (getD_mem _ ((q.tailBlock + 1) % q.blocks.length)
          default (by simpa using hnext))
        obtain ⟨nf, nt, nlf, nlt, nex, nlen⟩ := hnbwf
        exact WF_mk _ _ _ _ _ _ (by simpa using hn) (by simpa using hfb)
          (by simpa using hnext)
          (blocksWF_set hall0 (BlockWF_mk _ ⟨nf, nt, nlf, nlt, nex, nlen⟩ _ _ _ _ _
            nf nlt Nat.and_le_right nf (by simp [List.length_set]))) hwm
      case pos =>
        rw [if_neg (not_not_intro hc3)]
        obtain ⟨t, ht1, ht63, hwmt⟩ := hwm
        by_cases hcb : maxBlockSize ≤ q.largestBlockSize
        · rw [if_pos hcb]
          cases allocOk
          · simp only [Bool.false_eq_true, if_false, ite_false]
            cases canAlloc
            · simp only [Bool.false_eq_true, if_false, ite_false]
              exact WF_mk _ _ _ _ _ _ (by simpa using hn) (by simpa using hfb)
                (by simpa using htb) (blocksWF_set hall hb0) ⟨t, ht1, ht63, hwmt⟩
            · simp only [ite_true, if_true]
              exact WF_mk _ _ _ _ _ _ (by simpa using hn) (by simpa using hfb)
                (by simpa using htb) (blocksWF_set hall hb0) ⟨t, ht1, ht63, hwmt⟩
          · cases canAlloc
            · simp only [Bool.false_eq_true, if_false, ite_false]
              exact WF_mk _ _ _ _ _ _ (by simpa using hn) (by simpa using hfb)
                (by simpa using htb) (blocksWF_set hall hb0) ⟨t, ht1, ht63, hwmt⟩
            · simp only [ite_true, if_true]
              have hnb := make_block_WF q.largestBlockSize t ht1 ht63 hwmt v
              refine WF_mk _ _ _ _ _ _ ?_ ?_ ?_ ?_ ⟨t, ht1, ht63, hwmt⟩
              · rw [List.length_insertIdx]  
                · omega
                · simpa using htb
              · rw [List.length_insertIdx]
                · by_cases hfo : q.tailBlock < q.frontBlock <;>
                    simp [hfo] <;> omega
                · simpa using htb
              · rw [List.length_insertIdx]
                · simpa using htb
                · simpa using htb
              · intro b hb
                rcases (List.mem_insertIdx (by simpa using htb)).mp hb with hm | hm
                · rw [hm]; exact hnb
                · exact blocksWF_set hall hb0 b hm
        · rw [if_neg hcb]
          cases allocOk
          · simp only [Bool.false_eq_true, if_false, ite_false]
            cases canAlloc
            · simp only [Bool.false_eq_true, if_false, ite_false]
              exact WF_mk _ _ _ _ _ _ (by simpa using hn) (by simpa using hfb)
                (by simpa using htb) (blocksWF_set hall hb0) ⟨t, ht1, ht63, hwmt⟩
            · simp only [ite_true, if_true]
              exact WF_mk _ _ _ _ _ _ (by simpa using hn) (by simpa using hfb)
                (by simpa using htb) (blocksWF_set hall hb0) ⟨t, ht1, ht63, hwmt⟩
          · cases canAlloc
            · simp only [Bool.false_eq_true, if_false, ite_false]
              exact WF_mk _ _ _ _ _ _ (by simpa using hn) (by simpa using hfb)
                (by simpa using htb) (blocksWF_set hall hb0) ⟨t, ht1, ht63, hwmt⟩
            · simp only [ite_true, if_true]
              have htlt : t < e := by
                have := hwmt ▸ hcb
                rw [hm] at this
                have h2lt : (2:Nat) ^ t < 2 ^ e := by omega
                exact (Nat.pow_lt_pow_iff_right (by norm_num)).mp h2lt
              have hcap2 : q.largestBlockSize * 2 = 2 ^ (t + 1) := by
                rw [hwmt, Nat.pow_succ]
              have hnb := make_block_WF (q.largestBlockSize * 2) (t + 1)
                (by omega) (by omega) hcap2 v
              refine WF_mk _ _ _ _ _ _ ?_ ?_ ?_ ?_ ⟨t + 1, by omega, by omega, hcap2⟩
              · rw [List.length_insertIdx]
                · omega
                · simpa using htb
              · rw [List.length_insertIdx]
                · by_cases hfo : q.tailBlock < q.frontBlock <;>
                    simp [hfo] <;> omega
                · simpa using htb
              · rw [List.length_insertIdx]
                · simpa using htb
                · simpa using htb
              · intro b hb
                rcases (List.mem_insertIdx (by simpa using htb)).mp hb with hm2 | hm2
                · rw [hm2]; exact hnb
                · exact blocksWF_set hall hb0 b hm2

/-- A fresh block of power-of-two capacity is well formed. -/
theorem make_block_fresh_WF {α : Type} [Inhabited α] (c t : Nat) (h1 : 1 ≤ t)
    (h2 : t ≤ 63) (hc : c = 2 ^ t) : BlockWF (make_block α c) := by
  subst hc
  have hp1 : (2:Nat) ≤ 2 ^ t := by
    calc (2:Nat) = 2 ^ 1 := by norm_num
    _ ≤ 2 ^ t := Nat.pow_le_pow_right (by norm_num) h1
  have hple : (2:Nat) ^ t ≤ 2 ^ 63 := Nat.pow_le_pow_right (by norm_num) h2
  have h63 : (2:Nat) ^ 63 < 2 ^ 64 := by norm_num
  have hmaskv : (2 ^ t + (sizeTMod - 1)) % sizeTMod = 2 ^ t - 1 := by
    unfold sizeTMod
    omega
  unfold make_block BlockWF
  simp only [hmaskv, List.length_replicate]
  refine ⟨by omega, by omega, by omega, by omega, ⟨t, by omega, rfl⟩, by omega⟩

/-- A constructed queue is well formed, for any hint in the sane range
and any power-of-two template cap. -/
theorem mkQueue_WF {α : Type} [Inhabited α] (maxBlockSize e maxSize : Nat)
    (he1 : 1 ≤ e) (he2 : e ≤ 62) (hm : maxBlockSize = 2 ^ e)
    (h1 : 1 ≤ maxSize) (h2 : maxSize ≤ 2 ^ 63 - 1) :
    WF (mkQueue α maxBlockSize maxSize) := by
  have hx1 : 1 ≤ maxSize + 1 := by omega
  have hx2 : maxSize + 1 ≤ 2 ^ 63 := by omega
  have hceil : ceilToPow2 (maxSize + 1) = 2 ^ Nat.size maxSize := by
    have := ceilToPow2_eq hx1 hx2
    simpa using this
  have hs1 : 1 ≤ Nat.size maxSize := by
    have := Nat.size_pos.mpr (show 0 < maxSize by omega)
    omega
  have hsle : Nat.size maxSize ≤ 63 := Nat.size_le.mpr (by omega)
  by_cases hb : maxBlockSize * 2 < ceilToPow2 (maxSize + 1)
  · rw [mkQueue_eq_multi _ _ hb]
    have hm2 : 2 ≤ maxBlockSize := by
      rw [hm]
      calc (2:Nat) = 2 ^ 1 := by norm_num
      _ ≤ 2 ^ e := Nat.pow_le_pow_right (by norm_num) he1
    have hcount : 1 ≤ (maxSize + maxBlockSize * 2 - 3) / (maxBlockSize - 1) := by
      rw [Nat.le_div_iff_mul_le (by omega)]
      omega
    refine WF_mk _ _ _ _ _ _ ?_ ?_ ?_ ?_ ⟨e, he1, by omega, hm⟩
    · rw [List.length_replicate]
      omega
    · rw [List.length_replicate]
      omega
    · rw [List.length_replicate]
      omega
    · intro b hb2
      rw [List.eq_of_mem_replicate hb2]
      exact make_block_fresh_WF maxBlockSize e he1 (by omega) hm
  · rw [mkQueue_eq_single _ _ (by omega)]
    refine WF_mk _ _ _ _ _ _ (by simp) (by simp) (by simp) ?_
      ⟨Nat.size maxSize, hs1, hsle, hceil⟩
    intro b hb2
    rw [List.mem_singleton.mp hb2, hceil]
    exact make_block_fresh_WF _ (Nat.size maxSize) hs1 hsle rfl

/-- `try_dequeue` preserves well-formedness. -/
theorem try_dequeue_WF {α : Type} [Inhabited α] (q : ConcurrentQueue α)
    (hwf : WF q) (r : Option α) (q' : ConcurrentQueue α)
    (h : try_dequeue q = Except.ok (r, q')) : WF q' := by
  unfold try_dequeue at h
  by_cases hg : q.dequeuing = true
  · rw [if_pos hg] at h
    exact absurd h (by simp)
  · rw [if_neg hg] at h
    obtain ⟨hn, hfb, htb, hall, hwm⟩ := hwf
    have hfbwf := hall _ (getD_mem q.blocks q.frontBlock default hfb)
    obtain ⟨hfr, htl, hlfr, hltl, hex, hlen⟩ := hfbwf
    by_cases hc1 : (q.blocks.getD q.frontBlock default).front ≠
        (q.blocks.getD q.frontBlock default).localTail
    · rw [if_pos hc1] at h
      have hq := ((Prod.mk.injEq _ _ _ _).mp (Except.ok.inj h)).2
      rw [← hq]
      exact WF_mk _ _ _ _ _ _ (by simpa using hn) (by simpa using hfb)
        (by simpa using htb)
        (blocksWF_set hall (BlockWF_mk _ ⟨hfr, htl, hlfr, hltl, hex, hlen⟩ _ _ _ _ _
          Nat.and_le_right hltl htl hlfr rfl)) hwm
    · rw [if_neg hc1] at h
      by_cases hc2 : (q.blocks.getD q.frontBlock default).front ≠
          (q.blocks.getD q.frontBlock default).tail
      · rw [if_pos hc2] at h
        have hq := ((Prod.mk.injEq _ _ _ _).mp (Except.ok.inj h)).2
        rw [← hq]
        exact WF_mk _ _ _ _ _ _ (by simpa using hn) (by simpa using hfb)
          (by simpa using htb)
          (blocksWF_set hall (BlockWF_mk _ ⟨hfr, htl, hlfr, hltl, hex, hlen⟩ _ _ _ _ _
            Nat.and_le_right htl htl hlfr rfl)) hwm
      · rw [if_neg hc2] at h
        by_cases hc3 : q.frontBlock ≠ q.tailBlock
        · rw [if_pos hc3] at h
          rw [if_neg hc2] at h
          have hb0 : BlockWF (Block.mk (q.blocks.getD q.frontBlock default).front
              (q.blocks.getD q.frontBlock default).tail
              (q.blocks.getD q.frontBlock default).tail
              (q.blocks.getD q.frontBlock default).localFront
              (q.blocks.getD q.frontBlock default).data
              (q.blocks.getD q.frontBlock default).sizeMask) :=
            BlockWF_mk _ ⟨hfr, htl, hlfr, hltl, hex, hlen⟩ _ _ _ _ _ hfr htl htl hlfr rfl
          have hall0 : ∀ b ∈ q.blocks.set q.frontBlock (Block.mk
              (q.blocks.getD q.frontBlock default).front
              (q.blocks.getD q.frontBlock default).tail
              (q.blocks.getD q.frontBlock default).tail
              (q.blocks.getD q.frontBlock default).localFront
              (q.blocks.getD q.frontBlock default).data
              (q.blocks.getD q.frontBlock default).sizeMask), BlockWF b :=
            blocksWF_set hall hb0
          have hnext : (q.frontBlock + 1) % q.blocks.length < q.blocks.length :=
            Nat.mod_lt _ (by omega)
          have hnbwf := hall0 _ (getD_mem _ ((q.frontBlock + 1) % q.blocks.length)
            default (by simpa using hnext))
          obtain ⟨nf, nt, nlf, nlt, nex, nlen⟩ := hnbwf
          have hq := ((Prod.mk.injEq _ _ _ _).mp (Except.ok.inj h)).2
          rw [← hq]
          exact WF_mk _ _ _ _ _ _ (by simpa using hn) (by simpa using hnext)
            (by simpa using htb)
            (blocksWF_set hall0 (BlockWF_mk _ ⟨nf, nt, nlf, nlt, nex, nlen⟩ _ _ _ _ _
              Nat.and_le_right nt nt nlf rfl)) hwm
        · rw [if_neg hc3] at h
          have hq := ((Prod.mk.injEq _ _ _ _).mp (Except.ok.inj h)).2
          rw [← hq]
          exact WF_mk _ _ _ _ _ _ (by simpa using hn) (by simpa using hfb)
            (by simpa using htb)
            (blocksWF_set hall (BlockWF_mk _ ⟨hfr, htl, hlfr, hltl, hex, hlen⟩ _ _ _ _ _
              hfr htl htl hlfr rfl)) hwm

/-- Helper: `pop` computes the same result and state as `try_dequeue`
with the value replaced by its presence bit. -/
theorem pop_matches_try_dequeue {α : Type} [Inhabited α] (q : ConcurrentQueue α) :
    pop q = (try_dequeue q).map (fun r => (r.1.isSome, r.2)) := by
  unfold pop try_dequeue
  by_cases h0 : q.dequeuing = true
  · simp only [if_pos h0]; rfl
  · simp only [if_neg h0]
    split
    · rfl
    · split
      · rfl
      · split
        · rfl
        · rfl

/-- `pop` preserves well-formedness. -/
theorem pop_WF {α : Type} [Inhabited α] (q : ConcurrentQueue α)
    (hwf : WF q) (b : Bool) (q' : ConcurrentQueue α)
    (h : pop q = Except.ok (b, q')) : WF q' := by
  rw [pop_matches_try_dequeue] at h
  cases htd : try_dequeue q with
  | error e =>
    rw [htd] at h
    exact absurd h (by simp [Except.map])
  | ok p =>
    obtain ⟨r, q2⟩ := p
    rw [htd] at h
    simp only [Except.map] at h
    have hq := ((Prod.mk.injEq _ _ _ _).mp (Except.ok.inj h)).2
    rw [← hq]
    exact try_dequeue_WF q hwf r q2 htd

/-- `peek` preserves well-formedness. -/
theorem peek_WF {α : Type} [Inhabited α] (q : ConcurrentQueue α)
    (hwf : WF q) (r : Option α) (q' : ConcurrentQueue α)
    (h : peek q = Except.ok (r, q')) : WF q' := by
  unfold peek at h
  by_cases hg : q.dequeuing = true
  · rw [if_pos hg] at h
    exact absurd h (by simp)
  · rw [if_neg hg] at h
    obtain ⟨hn, hfb, htb, hall, hwm⟩ := hwf
    have hfbwf := hall _ (getD_mem q.blocks q.frontBlock default hfb)
    obtain ⟨hfr, htl, hlfr, hltl, hex, hlen⟩ := hfbwf
    have hwfq : WF q := ⟨hn, hfb, htb, hall, hwm⟩
    have hwf0 : WF { q with blocks := q.blocks.set q.frontBlock (Block.mk
        (q.blocks.getD q.frontBlock default).front
        (q.blocks.getD q.frontBlock default).tail
        (q.blocks.getD q.frontBlock default).tail
        (q.blocks.getD q.frontBlock default).localFront
        (q.blocks.getD q.frontBlock default).data
        (q.blocks.getD q.frontBlock default).sizeMask) } :=
      WF_mk _ _ _ _ _ _ (by simpa using hn) (by simpa using hfb)
        (by simpa using htb)
        (blocksWF_set hall (BlockWF_mk _ ⟨hfr, htl, hlfr, hltl, hex, hlen⟩ _ _ _ _ _
          hfr htl htl hlfr rfl)) hwm
    by_cases hc1 : (q.blocks.getD q.frontBlock default).front ≠
        (q.blocks.getD q.frontBlock default).localTail
    · rw [if_pos hc1] at h
      have hq := ((Prod.mk.injEq _ _ _ _).mp (Except.ok.inj h)).2
      rw [← hq]
      exact hwfq
    · rw [if_neg hc1] at h
      by_cases hc2 : (q.blocks.getD q.frontBlock default).front ≠
          (q.blocks.getD q.frontBlock default).tail
      · rw [if_pos hc2] at h
        have hq := ((Prod.mk.injEq _ _ _ _).mp (Except.ok.inj h)).2
        rw [← hq]
        exact hwf0
      · rw [if_neg hc2] at h
        by_cases hc3 : q.frontBlock ≠ q.tailBlock
        · rw [if_pos hc3] at h
          rw [if_neg hc2] at h
          have hq := ((Prod.mk.injEq _ _ _ _).mp (Except.ok.inj h)).2
          rw [← hq]
          exact hwf0
        · rw [if_neg hc3] at h
          have hq := ((Prod.mk.injEq _ _ _ _).mp (Except.ok.inj h)).2
          rw [← hq]
          exact hwf0

/-- `try_enqueue` preserves well-formedness. -/
theorem try_enqueue_WF {α : Type} [Inhabited α] (maxBlockSize e : Nat) (v : α)
    (q : ConcurrentQueue α) (he1 : 1 ≤ e) (he2 : e ≤ 62) (hm : maxBlockSize = 2 ^ e)
    (hwf : WF q) (b : Bool) (q' : ConcurrentQueue α)
    (h : try_enqueue maxBlockSize v q = Except.ok (b, q')) : WF q' := by
  unfold try_enqueue at h
  by_cases hg : q.enqueuing = true
  · rw [if_pos hg] at h
    exact absurd h (by simp)
  · rw [if_neg hg] at h
    have hq := ((Prod.mk.injEq _ _ _ _).mp (Except.ok.inj h)).2
    rw [← hq]
    have hwf1 : WF { q with enqueuing := true } := hwf
    exact inner_enqueue_WF maxBlockSize e false false v _ he1 he2 hm hwf1

/-- `enqueue` preserves well-formedness. -/
theorem enqueue_WF {α : Type} [Inhabited α] (maxBlockSize e : Nat)
    (allocOk : Bool) (v : α) (q : ConcurrentQueue α)
    (he1 : 1 ≤ e) (he2 : e ≤ 62) (hm : maxBlockSize = 2 ^ e)
    (hwf : WF q) (b : Bool) (q' : ConcurrentQueue α)
    (h : enqueue maxBlockSize allocOk v q = Except.ok (b, q')) : WF q' := by
  unfold enqueue at h
  by_cases hg : q.enqueuing = true
  · rw [if_pos hg] at h
    exact absurd h (by simp)
  · rw [if_neg hg] at h
    have hq := ((Prod.mk.injEq _ _ _ _).mp (Except.ok.inj h)).2
    rw [← hq]
    have hwf1 : WF { q with enqueuing := true } := hwf
    exact inner_enqueue_WF maxBlockSize e true allocOk v _ he1 he2 hm hwf1

/-- Every reachable state is well formed (and the template cap of a
reachable queue is a power of two in the supported range). -/
theorem reachable_WF {α : Type} [Inhabited α] (maxBlockSize : Nat)
    (q : ConcurrentQueue α) (hr : Reachable maxBlockSize q) :
    (∃ e, 1 ≤ e ∧ e ≤ 62 ∧ maxBlockSize = 2 ^ e) ∧ WF q := by
  induction hr with
  | init maxSize e h1 h2 he1 he2 hm =>
    exact ⟨⟨e, he1, he2, hm⟩, mkQueue_WF maxBlockSize e maxSize he1 he2 hm h1 h2⟩
  | stepTryEnqueue q q' v ok hq h ih =>
    obtain ⟨⟨e, he1, he2, hm⟩, hwf⟩ := ih
    exact ⟨⟨e, he1, he2, hm⟩, try_enqueue_WF maxBlockSize e v q he1 he2 hm hwf ok q' h⟩
  | stepEnqueue q q' v allocOk ok hq h ih =>
    obtain ⟨⟨e, he1, he2, hm⟩, hwf⟩ := ih
    exact ⟨⟨e, he1, he2, hm⟩,
      enqueue_WF maxBlockSize e allocOk v q he1 he2 hm hwf ok q' h⟩
  | stepTryDequeue q q' r hq h ih =>
    exact ⟨ih.1, try_dequeue_WF q ih.2 r q' h⟩
  | stepPop q q' ok hq h ih =>
    exact ⟨ih.1, pop_WF q ih.2 ok q' h⟩
  | stepPeek q q' r hq h ih =>
    exact ⟨ih.1, peek_WF q ih.2 r q' h⟩

/-- C6: at every reachable queue state, `size_approx` lies between 0
and the total allocated capacity minus the number of blocks, and in a
quiescent (sequential) view it equals the exact number of resident
elements. -/
theorem size_approx_bounds {α : Type} [Inhabited α] (maxBlockSize : Nat)
    (q : ConcurrentQueue α) (hr : Reachable maxBlockSize q) :
    0 ≤ size_approx q ∧
    size_approx q ≤ totalCapacity q - q.blocks.length ∧
    size_approx q = residentCount q := by
  have hwf := (reachable_WF maxBlockSize q hr).2
  have hb := size_approx_bound q hwf
  exact ⟨Nat.zero_le _, by omega, size_approx_exact_of_WF q hwf⟩

/-- Witness for C6 at the freshly constructed default queue. -/
theorem size_approx_bounds_witness :
    0 ≤ size_approx (mkQueue Nat 512 15) ∧
    size_approx (mkQueue Nat 512 15) ≤
      totalCapacity (mkQueue Nat 512 15) - (mkQueue Nat 512 15).blocks.length ∧
    size_approx (mkQueue Nat 512 15) = residentCount (mkQueue Nat 512 15) :=
  size_approx_bounds 512 _
    (Reachable.init 15 9 (by omega) (by norm_num) (by omega) (by omega) (by norm_num))

theorem getD_set_self {β : Type} (l : List β) (i : Nat) (b d : β)
    (h : i < l.length) : (l.set i b).getD i d = b := by
  rw [List.getD_eq_getElem?_getD, List.getElem?_set_self h]
  rfl

theorem getD_set_ne {β : Type} (l : List β) (i j : Nat) (b d : β)
    (h : i ≠ j) : (l.set i b).getD j d = l.getD j d := by
  rw [List.getD_eq_getElem?_getD, List.getElem?_set_ne h,
      ← List.getD_eq_getElem?_getD]

theorem inner_enqueue_fast_state {α : Type} [Inhabited α]
    (maxBlockSize : Nat) (canAlloc allocOk : Bool) (v : α) (q : ConcurrentQueue α)
    (hc1 : ((q.blocks.getD q.tailBlock default).tail + 1) &&&
        (q.blocks.getD q.tailBlock default).sizeMask ≠
      (q.blocks.getD q.tailBlock default).localFront) :
    inner_enqueue maxBlockSize canAlloc allocOk v q =
      EnqResult.mk true
        (ConcurrentQueue.mk
          (q.blocks.set q.tailBlock
            { q.blocks.getD q.tailBlock default with
                data := (q.blocks.getD q.tailBlock default).data.set
                  (q.blocks.getD q.tailBlock default).tail v,
                tail := ((q.blocks.getD q.tailBlock default).tail + 1) &&&
                  (q.blocks.getD q.tailBlock default).sizeMask })
          q.frontBlock q.tailBlock q.largestBlockSize q.enqueuing q.dequeuing)
        false := by
  unfold inner_enqueue
  rw [if_pos hc1]

theorem inner_enqueue_next_state {α : Type} [Inhabited α]
    (maxBlockSize : Nat) (canAlloc allocOk : Bool) (v : α) (q : ConcurrentQueue α)
    (hc1 : ((q.blocks.getD q.tailBlock default).tail + 1) &&&
        (q.blocks.getD q.tailBlock default).sizeMask =
      (q.blocks.getD q.tailBlock default).localFront)
    (hc2 : ((q.blocks.getD q.tailBlock default).tail + 1) &&&
        (q.blocks.getD q.tailBlock default).sizeMask =
      (q.blocks.getD q.tailBlock default).front)
    (hc3 : (q.tailBlock + 1) % q.blocks.length ≠ q.frontBlock) :
    inner_enqueue maxBlockSize canAlloc allocOk v q =
      EnqResult.mk true
        (ConcurrentQueue.mk
          ((q.blocks.set q.tailBlock
              { q.blocks.getD q.tailBlock default with
                  localFront := (q.blocks.getD q.tailBlock default).front }).set
            ((q.tailBlock + 1) % q.blocks.length)
            { (q.blocks.set q.tailBlock
                { q.blocks.getD q.tailBlock default with
                    localFront := (q.blocks.getD q.tailBlock default).front }).getD
                ((q.tailBlock + 1) % q.blocks.length) default with
                localFront := ((q.blocks.set q.tailBlock
                  { q.blocks.getD q.tailBlock default with
                      localFront := (q.blocks.getD q.tailBlock default).front }).getD
                  ((q.tailBlock + 1) % q.blocks.length) default).front,
                data := ((q.blocks.set q.tailBlock
                  { q.blocks.getD q.tailBlock default with
                      localFront := (q.blocks.getD q.tailBlock default).front }).getD
                  ((q.tailBlock + 1) % q.blocks.length) default).data.set
                  ((q.blocks.set q.tailBlock
                    { q.blocks.getD q.tailBlock default with
                        localFront := (q.blocks.getD q.tailBlock default).front }).getD
                    ((q.tailBlock + 1) % q.blocks.length) default).tail v,
                tail := (((q.blocks.set q.tailBlock
                  { q.blocks.getD q.tailBlock default with
                      localFront := (q.blocks.getD q.tailBlock default).front }).getD
                  ((q.tailBlock + 1) % q.blocks.length) default).tail + 1) &&&
                  ((q.blocks.set q.tailBlock
                    { q.blocks.getD q.tailBlock default with
                        localFront := (q.blocks.getD q.tailBlock default).front }).getD
                    ((q.tailBlock + 1) % q.blocks.length) default).sizeMask })
          q.frontBlock ((q.tailBlock + 1) % q.blocks.length)
          q.largestBlockSize q.enqueuing q.dequeuing)
        false := by
  unfold inner_enqueue
  have hlf : (q.blocks.getD q.tailBlock default).localFront =
      (q.blocks.getD q.tailBlock default).front := hc1.symm.trans hc2
  simp only [hc1, hlf, ne_eq, eq_self_iff_true, not_true_eq_false, if_false,
    ite_false, hc3, not_false_eq_true, if_true, ite_true]

theorem runTailIdx_bounds {m j : Nat} (hm : 1 ≤ m) :
    m * runTailIdx m j ≤ j ∧ j - m * runTailIdx m j ≤ m ∧
    (1 ≤ j → 1 ≤ j - m * runTailIdx m j) := by
  by_cases h0 : j = 0
  · subst h0
    simp [runTailIdx]
  · have hq : runTailIdx m j = (j - 1) / m := by
      simp [runTailIdx, h0]
    have hdm := Nat.div_add_mod (j - 1) m
    have hmod := Nat.mod_lt (j - 1) (show 0 < m by omega)
    rw [hq]
    omega

theorem div_eq_helper {m j k : Nat} (lo : m * k ≤ j) (hi : j < m * k + m) :
    j / m = k := by
  apply Nat.div_eq_of_lt_le
  · rw [Nat.mul_comm]
    exact lo
  · have he : (k + 1) * m = m * k + m := by
      rw [Nat.add_mul, Nat.one_mul, Nat.mul_comm k m]
    omega

theorem runTailIdx_succ_same {m j : Nat} (hm : 1 ≤ m)
    (hr : j - m * runTailIdx m j < m) :
    runTailIdx m (j + 1) = runTailIdx m j := by
  have hb := runTailIdx_bounds (m := m) (j := j) hm
  have hq1 : runTailIdx m (j + 1) = j / m := by
    simp [runTailIdx]
  rw [hq1]
  exact div_eq_helper hb.1 (by omega)

theorem runTailIdx_succ_next {m j : Nat} (hm : 1 ≤ m)
    (hr : j - m * runTailIdx m j = m) :
    runTailIdx m (j + 1) = runTailIdx m j + 1 := by
  have hb := runTailIdx_bounds (m := m) (j := j) hm
  have hq1 : runTailIdx m (j + 1) = j / m := by
    simp [runTailIdx]
  rw [hq1]
  have he : m * (runTailIdx m j + 1) = m * runTailIdx m j + m := by
    rw [Nat.mul_add, Nat.mul_one]
  exact div_eq_helper (by omega) (by omega)

theorem runTailIdx_lt {m j n : Nat} (hm : 1 ≤ m) (hj : j < n * m) :
    runTailIdx m j < n := by
  by_cases h0 : j = 0
  · subst h0
    have : 0 < n * m := by omega
    have hn : 0 < n := by
      rcases Nat.eq_zero_or_pos n with h | h
      · rw [h] at this; omega
      · exact h
    simpa [runTailIdx] using hn
  · have hq : runTailIdx m j = (j - 1) / m := by
      simp [runTailIdx, h0]
    rw [hq]
    rw [Nat.div_lt_iff_lt_mul (show 0 < m by omega)]
    omega

theorem enqRun_step {α : Type} [Inhabited α] (maxBlockSize n m u j : Nat) (v : α)
    (q : ConcurrentQueue α) (hu1 : 1 ≤ u) (hu2 : u ≤ 64) (hm : m = 2 ^ u - 1)
    (hinv : EnqRunInv n m j q) (hj : j < n * m) :
    ∃ q', try_enqueue maxBlockSize v q = Except.ok (true, q') ∧
      EnqRunInv n m (j + 1) q' := by
  obtain ⟨hg, hlen, hfb, htbi, hblocks⟩ := hinv
  have h2u : (2:Nat) ≤ 2 ^ u := by
    calc (2:Nat) = 2 ^ 1 := by norm_num
    _ ≤ 2 ^ u := Nat.pow_le_pow_right (by norm_num) hu1
  have hmpos : 1 ≤ m := by omega
  have hqdlt : runTailIdx m j < n := runTailIdx_lt hmpos hj
  have hb := runTailIdx_bounds (m := m) (j := j) hmpos
  have hand : ∀ x : Nat, x ≤ m → x &&& m = x := by
    intro x hx
    rw [hm, Nat.and_pow_two_sub_one_eq_mod]
    exact Nat.mod_eq_of_lt (by omega)
  have hand0 : (m + 1) &&& m = 0 := by
    rw [hm]
    have he : (2:Nat) ^ u - 1 + 1 = 2 ^ u := by omega
    rw [he, Nat.and_pow_two_sub_one_eq_mod, Nat.mod_self]
  have hteq : q.blocks.getD q.tailBlock default =
      q.blocks.getD (runTailIdx m j) default := by rw [htbi]
  obtain ⟨hbf, hblf, hbm, hbt⟩ := hblocks (runTailIdx m j) hqdlt
  have hbt2 : (q.blocks.getD (runTailIdx m j) default).tail =
      j - m * runTailIdx m j := by
    rw [hbt]
    simp
  by_cases hcase : j - m * runTailIdx m j < m
  · -- room in the tail block: fast path
    have hrv : j - m * runTailIdx m j + 1 ≤ m := by omega
    have hc1 : ((q.blocks.getD q.tailBlock default).tail + 1) &&&
        (q.blocks.getD q.tailBlock default).sizeMask ≠
        (q.blocks.getD q.tailBlock default).localFront := by
      rw [hteq, hbt2, hbm, hblf, hand _ hrv]
      omega
    rw [try_enqueue_eq maxBlockSize v q hg,
        inner_enqueue_fast_state maxBlockSize false false v
          { q with enqueuing := true } hc1]
    refine ⟨_, rfl, ?_⟩
    have hsucc := runTailIdx_succ_same hmpos hcase
    suffices hsuf : EnqRunInv n m (j + 1) (ConcurrentQueue.mk
        (q.blocks.set q.tailBlock
          { q.blocks.getD q.tailBlock default with
              data := (q.blocks.getD q.tailBlock default).data.set
                (q.blocks.getD q.tailBlock default).tail v,
              tail := ((q.blocks.getD q.tailBlock default).tail + 1) &&&
                (q.blocks.getD q.tailBlock default).sizeMask })
        q.frontBlock q.tailBlock q.largestBlockSize false q.dequeuing) by
      exact hsuf
    refine ⟨rfl, ?_, hfb, ?_, ?_⟩
    · rw [List.length_set]
      exact hlen
    · rw [hsucc]
      exact htbi
    · intro i hi
      by_cases hieq : i = runTailIdx m j
      · subst hieq
        rw [htbi]
        rw [getD_set_self _ _ _ _ (by rw [hlen]; exact hqdlt)]
        refine ⟨hbf, hblf, hbm, ?_⟩
        rw [hbt2, hbm, hand _ hrv, hsucc]
        rw [if_neg (show ¬ runTailIdx m j < runTailIdx m j by omega), if_pos rfl]
        show j - m * runTailIdx m j + 1 = j + 1 - m * runTailIdx m j
        omega
      · rw [getD_set_ne _ _ _ _ _ (by rw [htbi]; omega)]
        obtain ⟨g1, g2, g3, g4⟩ := hblocks i hi
        refine ⟨g1, g2, g3, ?_⟩
        rw [g4, hsucc]
        by_cases hlt : i < runTailIdx m j
        · rw [if_pos hlt, if_pos hlt]
        · rw [if_neg hlt, if_neg hlt, if_neg hieq, if_neg hieq]
  · -- the tail block just became full: move to the next ring block
    have hcfull : j - m * runTailIdx m j = m := by omega
    have hqd1 : runTailIdx m j + 1 < n := by
      have hmul : m * (runTailIdx m j + 1) = m * runTailIdx m j + m := by
        rw [Nat.mul_add, Nat.mul_one]
      have hcm : n * m = m * n := Nat.mul_comm n m
      have hlt : m * (runTailIdx m j + 1) < m * n := by omega
      exact Nat.lt_of_mul_lt_mul_left hlt
    have hc1 : ((q.blocks.getD q.tailBlock default).tail + 1) &&&
        (q.blocks.getD q.tailBlock default).sizeMask =
        (q.blocks.getD q.tailBlock default).localFront := by
      rw [hteq, hbt2, hbm, hblf, hcfull, hand0]
    have hc2 : ((q.blocks.getD q.tailBlock default).tail + 1) &&&
        (q.blocks.getD q.tailBlock default).sizeMask =
        (q.blocks.getD q.tailBlock default).front := by
      rw [hteq, hbt2, hbm, hbf, hcfull, hand0]
    have hnextv : (q.tailBlock + 1) % q.blocks.length = runTailIdx m j + 1 := by
      rw [htbi, hlen]
      exact Nat.mod_eq_of_lt (by omega)
    have hc3 : (q.tailBlock + 1) % q.blocks.length ≠ q.frontBlock := by
      rw [hnextv, hfb]
      omega
    rw [try_enqueue_eq maxBlockSize v q hg,
        inner_enqueue_next_state maxBlockSize false false v
          { q with enqueuing := true } hc1 hc2 hc3]
    refine ⟨_, rfl, ?_⟩
    have hsucc := runTailIdx_succ_next hmpos hcfull
    have hnbeq : (q.blocks.set q.tailBlock
        { q.blocks.getD q.tailBlock default with
            localFront := (q.blocks.getD q.tailBlock default).front }).getD
        ((q.tailBlock + 1) % q.blocks.length) default =
        q.blocks.getD (runTailIdx m j + 1) default := by
      rw [hnextv, getD_set_ne _ _ _ _ _ (by rw [htbi]; omega)]
    obtain ⟨n1, n2, n3, n4⟩ := hblocks (runTailIdx m j + 1) hqd1
    have hn4 : (q.blocks.getD (runTailIdx m j + 1) default).tail = 0 := by
      rw [n4, if_neg (by omega), if_neg (by omega)]
    suffices hsuf : EnqRunInv n m (j + 1) (ConcurrentQueue.mk
        ((q.blocks.set q.tailBlock
            { q.blocks.getD q.tailBlock default with
                localFront := (q.blocks.getD q.tailBlock default).front }).set
          ((q.tailBlock + 1) % q.blocks.length)
          { q.blocks.getD (runTailIdx m j + 1) default with
              localFront := (q.blocks.getD (runTailIdx m j + 1) default).front,
              data := (q.blocks.getD (runTailIdx m j + 1) default).data.set
                (q.blocks.getD (runTailIdx m j + 1) default).tail v,
              tail := ((q.blocks.getD (runTailIdx m j + 1) default).tail + 1) &&&
                (q.blocks.getD (runTailIdx m j + 1) default).sizeMask })
        q.frontBlock ((q.tailBlock + 1) % q.blocks.length)
        q.largestBlockSize false q.dequeuing) by
      rw [← hnbeq] at hsuf
      exact hsuf
    refine ⟨rfl, ?_, hfb, ?_, ?_⟩
    · rw [List.length_set, List.length_set]
      exact hlen
    · rw [hnextv, hsucc]
    · intro i hi
      by_cases hieq1 : i = runTailIdx m j + 1
      · subst hieq1
        rw [hnextv, getD_set_self _ _ _ _
          (by rw [List.length_set, hlen]; exact hqd1)]
        refine ⟨n1, n1, n3, ?_⟩
        rw [hn4, n3, hand _ (by omega), hsucc]
        rw [if_neg (by omega), if_pos rfl]
        have hmul : m * (runTailIdx m j + 1) = m * runTailIdx m j + m := by
          rw [Nat.mul_add, Nat.mul_one]
        show 0 + 1 = j + 1 - m * (runTailIdx m j + 1)
        omega
      · rw [hnextv, getD_set_ne _ _ _ _ _ (by omega)]
        by_cases hieq2 : i = runTailIdx m j
        · subst hieq2
          rw [htbi]
          rw [getD_set_self _ _ _ _ (by rw [hlen]; exact hqdlt)]
          refine ⟨hbf, hbf, hbm, ?_⟩
          rw [hbt2, hcfull, hsucc]
          rw [if_pos (by omega)]
        · rw [getD_set_ne _ _ _ _ _ (by rw [htbi]; omega)]
          obtain ⟨g1, g2, g3, g4⟩ := hblocks i hi
          refine ⟨g1, g2, g3, ?_⟩
          rw [g4, hsucc]
          by_cases hlt : i < runTailIdx m j
          · rw [if_pos hlt, if_pos (by omega)]
          · rw [if_neg hlt, if_neg (by omega), if_neg (by omega),
                if_neg (by omega)]

theorem runTryEnqueues_cons_ok {α : Type} [Inhabited α] (maxBlockSize : Nat)
    (v : α) (vs : List α) (q q1 : ConcurrentQueue α) (b : Bool)
    (h : try_enqueue maxBlockSize v q = Except.ok (b, q1)) :
    runTryEnqueues maxBlockSize (v :: vs) q =
      (runTryEnqueues maxBlockSize vs q1).map (fun r => (b :: r.1, r.2)) := by
  simp only [runTryEnqueues, h]

/-- Chaining `enqRun_step` over a list of values: starting from any
state satisfying the run invariant with enough capacity left, the whole
run of `try_enqueue` calls succeeds with every call returning `true`. -/
theorem enqRun_run {α : Type} [Inhabited α] (maxBlockSize n m u : Nat)
    (hu1 : 1 ≤ u) (hu2 : u ≤ 64) (hm : m = 2 ^ u - 1) :
    ∀ (vs : List α) (j : Nat) (q : ConcurrentQueue α),
      EnqRunInv n m j q → j + vs.length ≤ n * m →
      ∃ q', runTryEnqueues maxBlockSize vs q =
          some (List.replicate vs.length true, q') ∧
        EnqRunInv n m (j + vs.length) q' := by
  intro vs
  induction vs with
  | nil =>
    intro j q hinv _
    exact ⟨q, rfl, by simpa using hinv⟩
  | cons v vs ih =>
    intro j q hinv hle
    have hj : j < n * m := by
      simp only [List.length_cons] at hle
      omega
    obtain ⟨q1, heq, hinv1⟩ :=
      enqRun_step maxBlockSize n m u j v q hu1 hu2 hm hinv hj
    obtain ⟨q', heq2, hinv2⟩ := ih (j + 1) q1 hinv1
      (by simp only [List.length_cons] at hle ⊢; omega)
    refine ⟨q', ?_, ?_⟩
    · rw [runTryEnqueues_cons_ok maxBlockSize v vs q q1 true heq, heq2]
      rfl
    · have he : j + 1 + vs.length = j + (v :: vs).length := by
        simp only [List.length_cons]
        omega
      rw [he] at hinv2
      exact hinv2

/-- The freshly constructed queue satisfies the enqueue-run invariant
at step `0`: some number `n` of identical blocks whose common
`sizeMask` is `2 ^ u - 1`, with total slack `n * (2 ^ u - 1)` at least
the capacity hint. -/
theorem mkQueue_enqRunInv (α : Type) [Inhabited α] (e K : Nat)
    (he1 : 1 ≤ e) (he2 : e ≤ 62) (hK1 : 1 ≤ K) (hK2 : K ≤ 2 ^ 63 - 1) :
    ∃ n u, 1 ≤ u ∧ u ≤ 64 ∧ K ≤ n * (2 ^ u - 1) ∧
      EnqRunInv n (2 ^ u - 1) 0 (mkQueue α (2 ^ e) K) := by
  have hce : ceilToPow2 (K + 1) = 2 ^ K.size := by
    have h := ceilToPow2_eq (x := K + 1) (by omega) (by omega)
    simpa using h
  have hp1 : 1 ≤ (2:Nat) ^ e := Nat.one_le_two_pow
  have hp2 : (2:Nat) ≤ 2 ^ e := by
    calc (2:Nat) = 2 ^ 1 := by norm_num
    _ ≤ 2 ^ e := Nat.pow_le_pow_right (by norm_num) he1
  have hp62 : (2:Nat) ^ e ≤ 2 ^ 62 := Nat.pow_le_pow_right (by norm_num) he2
  by_cases hbr : 2 ^ e * 2 < ceilToPow2 (K + 1)
  · -- multi-block ring of blocks of capacity 2 ^ e, mask 2 ^ e - 1
    have hmask : ((2:Nat) ^ e + (sizeTMod - 1)) % sizeTMod = 2 ^ e - 1 := by
      unfold sizeTMod
      omega
    have hdm := Nat.div_add_mod (K + 2 ^ e * 2 - 3) (2 ^ e - 1)
    have hr : (K + 2 ^ e * 2 - 3) % (2 ^ e - 1) < 2 ^ e - 1 :=
      Nat.mod_lt _ (by omega)
    have hcm : (K + 2 ^ e * 2 - 3) / (2 ^ e - 1) * (2 ^ e - 1)
        = (2 ^ e - 1) * ((K + 2 ^ e * 2 - 3) / (2 ^ e - 1)) := Nat.mul_comm _ _
    refine ⟨(K + 2 ^ e * 2 - 3) / (2 ^ e - 1), e, he1, by omega, by omega, ?_⟩
    rw [mkQueue_eq_multi _ _ hbr]
    refine ⟨rfl, List.length_replicate _ _, rfl, rfl, ?_⟩
    intro i hi
    have hget : (List.replicate ((K + 2 ^ e * 2 - 3) / (2 ^ e - 1))
        (make_block α (2 ^ e))).getD i default = make_block α (2 ^ e) := by
      have hmem := getD_mem (List.replicate ((K + 2 ^ e * 2 - 3) / (2 ^ e - 1))
        (make_block α (2 ^ e))) i default (by rw [List.length_replicate]; exact hi)
      exact List.eq_of_mem_replicate hmem
    rw [hget]
    refine ⟨rfl, rfl, hmask, ?_⟩
    rw [show runTailIdx (2 ^ e - 1) 0 = 0 from rfl]
    rcases Nat.eq_zero_or_pos i with h0 | h0
    · subst h0
      simp [make_block]
    · rw [if_neg (by omega), if_neg (by omega)]
      rfl
  · -- a single block of capacity 2 ^ K.size
    have hs1 : 1 ≤ K.size := Nat.size_pos.mpr (by omega)
    have hs63 : K.size ≤ 63 := Nat.size_le.mpr (by omega)
    have hps : (2:Nat) ^ K.size ≤ 2 ^ 63 := Nat.pow_le_pow_right (by norm_num) hs63
    have hps1 : 1 ≤ (2:Nat) ^ K.size := Nat.one_le_two_pow
    have hKlt := Nat.lt_size_self K
    have hmask : ((2:Nat) ^ K.size + (sizeTMod - 1)) % sizeTMod
        = 2 ^ K.size - 1 := by
      unfold sizeTMod
      omega
    refine ⟨1, K.size, hs1, by omega, by omega, ?_⟩
    rw [mkQueue_eq_single _ _ (by omega), hce]
    refine ⟨rfl, rfl, rfl, rfl, ?_⟩
    intro i hi
    have hi0 : i = 0 := by omega
    subst hi0
    refine ⟨rfl, rfl, hmask, ?_⟩
    simp [make_block, runTailIdx]

/-- C2: capacity floor.  For every hint `K ≥ 1` (within `size_t`
range) and power-of-two template parameter `MAX_BLOCK_SIZE = 2 ^ e`,
the queue built by the constructor with hint `K` accepts `K`
consecutive `try_enqueue` calls, all returning `true`, with no dequeue
in between; `try_enqueue` never allocates (it runs
`inner_enqueue<CannotAlloc>`), and indeed the block ring keeps its
construction-time length throughout. -/
theorem capacity_floor (α : Type) [Inhabited α] (e K : Nat) (vs : List α)
    (he1 : 1 ≤ e) (he2 : e ≤ 62) (hK1 : 1 ≤ K) (hK2 : K ≤ 2 ^ 63 - 1)
    (hlen : vs.length = K) :
    ∃ q', runTryEnqueues (2 ^ e) vs (mkQueue α (2 ^ e) K) =
        some (List.replicate K true, q') ∧
      q'.blocks.length = (mkQueue α (2 ^ e) K).blocks.length := by
  obtain ⟨n, u, hu1, hu2, hcap, hinv⟩ := mkQueue_enqRunInv α e K he1 he2 hK1 hK2
  obtain ⟨q', hrun, hinv'⟩ := enqRun_run (2 ^ e) n (2 ^ u - 1) u hu1 hu2 rfl vs 0
    (mkQueue α (2 ^ e) K) hinv (by omega)
  refine ⟨q', by rw [hrun, hlen], ?_⟩
  rw [hinv'.2.1, hinv.2.1]

/-- Closed instance of the capacity floor: `MAX_BLOCK_SIZE = 2`, hint
`3`, three enqueued values, all three `try_enqueue` calls return
`true` and the ring length is unchanged. -/
theorem capacity_floor_witness :
    (1 ≤ 1 ∧ 1 ≤ 62 ∧ 1 ≤ 3 ∧ 3 ≤ 2 ^ 63 - 1 ∧ ([7, 8, 9] : List Nat).length = 3) ∧
    ∃ q', runTryEnqueues (2 ^ 1) [7, 8, 9] (mkQueue Nat (2 ^ 1) 3) =
        some (List.replicate 3 true, q') ∧
      q'.blocks.length = (mkQueue Nat (2 ^ 1) 3).blocks.length :=
  ⟨⟨by norm_num, by norm_num, by norm_num, by norm_num, rfl⟩,
    capacity_floor Nat 1 3 [7, 8, 9] (by norm_num) (by norm_num) (by norm_num)
      (by norm_num) rfl⟩

theorem mod_add_cancel {s f k c : Nat} (hk : k < s) (hc : c < s)
    (h : (f + k) % s = (f + c) % s) : k = c := by
  have h2 : k ≡ c [MOD s] := Nat.ModEq.add_left_cancel' f h
  rw [Nat.ModEq, Nat.mod_eq_of_lt hk, Nat.mod_eq_of_lt hc] at h2
  exact h2

/-- The resident contents of a block do not depend on the producer's
cached front. -/
theorem residentList_localFront {α : Type} [Inhabited α] (b : Block α) (x : Nat) :
    ({ b with localFront := x } : Block α).residentList = b.residentList := rfl

/-- Enqueue-step effect on one block, at the level of its resident
contents: storing `v` at the tail slot and advancing the tail index by
one (masked) appends `v` to the resident list, provided the block is
not full against its true front.  Stated over raw fields so that it
covers each of the three record shapes `inner_enqueue` builds. -/
theorem residentList_push {α : Type} [Inhabited α] (v : α)
    (f lt t lf lf' m u : Nat) (d : List α) (hm : m = 2 ^ u - 1)
    (hf : f ≤ m) (ht : t ≤ m) (hlen : d.length = m + 1)
    (hroom : (t + 1) &&& m ≠ f) :
    (Block.mk f lt ((t + 1) &&& m) lf' (d.set t v) m).residentList
      = (Block.mk f lt t lf d m).residentList ++ [v] := by
  have hpow : (1:Nat) ≤ 2 ^ u := Nat.one_le_two_pow
  have hs : m + 1 = 2 ^ u := by omega
  have hand : ∀ x : Nat, x &&& m = x % (m + 1) := by
    intro x
    rw [hm]
    have e : (2:Nat) ^ u - 1 + 1 = 2 ^ u := by omega
    rw [Nat.and_pow_two_sub_one_eq_mod, e]
  have hflt : f < m + 1 := by omega
  have htlt : t < m + 1 := by omega
  have hCt : (f + (m + 1 + t - f) % (m + 1)) % (m + 1) = t := by
    rw [count_mod_eq hflt htlt]
    by_cases hle : f ≤ t
    · rw [if_pos hle]
      have e : f + (t - f) = t := by omega
      rw [e]
      exact Nat.mod_eq_of_lt htlt
    · rw [if_neg hle]
      have e : f + (m + 1 + t - f) = (m + 1) + t := by omega
      rw [e, Nat.add_mod_left]
      exact Nat.mod_eq_of_lt htlt
  have hClt : (m + 1 + t - f) % (m + 1) < m + 1 := Nat.mod_lt _ (by omega)
  have hroomI : (if t + 1 = m + 1 then 0 else t + 1) ≠ f := by
    rw [hand, succ_mod_eq htlt] at hroom
    exact hroom
  have hC' : (m + 1 + ((t + 1) &&& m) - f) % (m + 1)
      = (m + 1 + t - f) % (m + 1) + 1 := by
    rw [hand, succ_mod_eq htlt]
    by_cases he : t + 1 = m + 1
    · rw [if_pos he, count_mod_eq hflt (by omega), count_mod_eq hflt htlt]
      have hf0 : f ≠ 0 := by
        intro h0
        exact hroomI (by rw [if_pos he, h0])
      split_ifs <;> omega
    · rw [if_neg he, count_mod_eq hflt (by omega), count_mod_eq hflt htlt]
      have hf1 : t + 1 ≠ f := by
        intro h1
        exact hroomI (by rw [if_neg he]; exact h1)
      split_ifs <;> omega
  simp only [Block.residentList, Block.residentCount]
  rw [hC', List.range_succ, List.map_append]
  congr 1
  · refine List.map_congr_left ?_
    intro k hk
    have hklt : k < (m + 1 + t - f) % (m + 1) := List.mem_range.mp hk
    have hne : (f + k) % (m + 1) ≠ t := by
      intro hkt
      have : (f + k) % (m + 1) = (f + (m + 1 + t - f) % (m + 1)) % (m + 1) := by
        rw [hkt, hCt]
      have := mod_add_cancel (by omega) hClt this
      omega
    exact getD_set_ne _ _ _ _ _ (Ne.symm hne)
  · simp only [List.map_cons, List.map_nil]
    rw [hCt]
    rw [getD_set_self _ _ _ _ (by omega)]

theorem inner_enqueue_refresh_state {α : Type} [Inhabited α]
    (maxBlockSize : Nat) (canAlloc allocOk : Bool) (v : α) (q : ConcurrentQueue α)
    (hc1 : ((q.blocks.getD q.tailBlock default).tail + 1) &&&
        (q.blocks.getD q.tailBlock default).sizeMask =
      (q.blocks.getD q.tailBlock default).localFront)
    (hc2 : ((q.blocks.getD q.tailBlock default).tail + 1) &&&
        (q.blocks.getD q.tailBlock default).sizeMask ≠
      (q.blocks.getD q.tailBlock default).front) :
    inner_enqueue maxBlockSize canAlloc allocOk v q =
      EnqResult.mk true
        (ConcurrentQueue.mk
          (q.blocks.set q.tailBlock
            { q.blocks.getD q.tailBlock default with
                localFront := (q.blocks.getD q.tailBlock default).front,
                data := (q.blocks.getD q.tailBlock default).data.set
                  (q.blocks.getD q.tailBlock default).tail v,
                tail := ((q.blocks.getD q.tailBlock default).tail + 1) &&&
                  (q.blocks.getD q.tailBlock default).sizeMask })
          q.frontBlock q.tailBlock q.largestBlockSize q.enqueuing q.dequeuing)
        false := by
  unfold inner_enqueue
  have hne : (q.blocks.getD q.tailBlock default).localFront ≠
      (q.blocks.getD q.tailBlock default).front := fun h => hc2 (hc1.trans h)
  simp only [hc1, ne_eq, eq_self_iff_true, not_true_eq_false, if_false, ite_false,
    hne, not_false_eq_true, if_true, ite_true]

theorem try_dequeue_fast_state {α : Type} [Inhabited α] (q : ConcurrentQueue α)
    (hg : q.dequeuing = false)
    (hd1 : (q.blocks.getD q.frontBlock default).front ≠
      (q.blocks.getD q.frontBlock default).localTail) :
    try_dequeue q = Except.ok
      (some ((q.blocks.getD q.frontBlock default).data.getD
         (q.blocks.getD q.frontBlock default).front default),
       ConcurrentQueue.mk
         (q.blocks.set q.frontBlock
           { q.blocks.getD q.frontBlock default with
               front := ((q.blocks.getD q.frontBlock default).front + 1) &&&
                 (q.blocks.getD q.frontBlock default).sizeMask })
         q.frontBlock q.tailBlock q.largestBlockSize q.enqueuing q.dequeuing) := by
  unfold try_dequeue
  rw [if_neg (by simp [hg])]
  rw [if_pos hd1]

theorem try_dequeue_refresh_state {α : Type} [Inhabited α] (q : ConcurrentQueue α)
    (hg : q.dequeuing = false)
    (hd1 : (q.blocks.getD q.frontBlock default).front =
      (q.blocks.getD q.frontBlock default).localTail)
    (hd2 : (q.blocks.getD q.frontBlock default).front ≠
      (q.blocks.getD q.frontBlock default).tail) :
    try_dequeue q = Except.ok
      (some ((q.blocks.getD q.frontBlock default).data.getD
         (q.blocks.getD q.frontBlock default).front default),
       ConcurrentQueue.mk
         (q.blocks.set q.frontBlock
           { q.blocks.getD q.frontBlock default with
               localTail := (q.blocks.getD q.frontBlock default).tail,
               front := ((q.blocks.getD q.frontBlock default).front + 1) &&&
                 (q.blocks.getD q.frontBlock default).sizeMask })
         q.frontBlock q.tailBlock q.largestBlockSize q.enqueuing q.dequeuing) := by
  unfold try_dequeue
  rw [if_neg (by simp [hg])]
  simp only [hd1, ne_eq, eq_self_iff_true, not_true_eq_false, if_false, ite_false]
  rw [← hd1]
  simp only [hd2, ne_eq, not_false_eq_true, if_true, ite_true]

theorem sb_enq_step {α : Type} [Inhabited α] (maxBlockSize m u : Nat) (v : α)
    (ws : List α) (q : ConcurrentQueue α) (hm : m = 2 ^ u - 1)
    (hinv : SbInv m [] ws q) (hlt : ws.length < m) :
    ∃ q', try_enqueue maxBlockSize v q = Except.ok (true, q') ∧
      SbInv m [] (ws ++ [v]) q' := by
  obtain ⟨hg, hdq, hlen, hfb, htb, hbm, hbf, hblf, hbt, hblt, hdlen, hdata⟩ := hinv
  have hpow : (1:Nat) ≤ 2 ^ u := Nat.one_le_two_pow
  have hand : ∀ x : Nat, x ≤ m → x &&& m = x := by
    intro x hx
    rw [hm, Nat.and_pow_two_sub_one_eq_mod]
    exact Nat.mod_eq_of_lt (by omega)
  have hbf0 : (q.blocks.getD 0 default).front = 0 := by simpa using hbf
  have hblf0 : (q.blocks.getD 0 default).localFront = 0 := hblf
  have hbt0 : (q.blocks.getD 0 default).tail = ws.length := by simpa using hbt
  have hblt0 : (q.blocks.getD 0 default).localTail = 0 := by simpa using hblt
  have hdata0 : ∀ i, i < ws.length →
      (q.blocks.getD 0 default).data.getD i default = ws.getD i default := by
    intro i hi
    have h := hdata i hi
    simpa using h
  have hc1 : ((q.blocks.getD q.tailBlock default).tail + 1) &&&
      (q.blocks.getD q.tailBlock default).sizeMask ≠
      (q.blocks.getD q.tailBlock default).localFront := by
    rw [htb, hbt0, hbm, hblf0, hand _ (by omega)]
    omega
  rw [try_enqueue_eq maxBlockSize v q hg,
      inner_enqueue_fast_state maxBlockSize false false v
        { q with enqueuing := true } hc1]
  refine ⟨_, rfl, ?_⟩
  suffices hsuf : SbInv m [] (ws ++ [v]) (ConcurrentQueue.mk
      (q.blocks.set q.tailBlock
        { q.blocks.getD q.tailBlock default with
            data := (q.blocks.getD q.tailBlock default).data.set
              (q.blocks.getD q.tailBlock default).tail v,
            tail := ((q.blocks.getD q.tailBlock default).tail + 1) &&&
              (q.blocks.getD q.tailBlock default).sizeMask })
      q.frontBlock q.tailBlock q.largestBlockSize false q.dequeuing) by
    exact hsuf
  refine ⟨rfl, hdq, ?_, hfb, htb, ?_, ?_, ?_, ?_, ?_, ?_, ?_⟩
  · rw [List.length_set]
    exact hlen
  · rw [htb, getD_set_self _ _ _ _ (by omega)]
    exact hbm
  · rw [htb, getD_set_self _ _ _ _ (by omega)]
    exact hbf
  · rw [htb, getD_set_self _ _ _ _ (by omega)]
    exact hblf
  · rw [htb, getD_set_self _ _ _ _ (by omega)]
    show ((q.blocks.getD 0 default).tail + 1) &&&
        (q.blocks.getD 0 default).sizeMask = [].length + (ws ++ [v]).length
    rw [hbt0, hbm, hand _ (by omega)]
    simp only [List.length_nil, List.length_append, List.length_cons]
    omega
  · rw [htb, getD_set_self _ _ _ _ (by omega)]
    show (q.blocks.getD 0 default).localTail = 0
    exact hblt0
  · rw [htb, getD_set_self _ _ _ _ (by omega)]
    show ((q.blocks.getD 0 default).data.set
        (q.blocks.getD 0 default).tail v).length = m + 1
    rw [List.length_set]
    exact hdlen
  · intro i hi
    rw [htb, getD_set_self _ _ _ _ (by omega)]
    show ((q.blocks.getD 0 default).data.set
        (q.blocks.getD 0 default).tail v).getD ([].length + i) default
      = (ws ++ [v]).getD i default
    simp only [List.length_nil, Nat.zero_add]
    simp only [List.length_append, List.length_cons, List.length_nil] at hi
    rw [hbt0]
    by_cases hi2 : i < ws.length
    · rw [getD_set_ne _ _ _ _ _ (by omega), hdata0 i hi2,
          List.getD_append _ _ _ _ hi2]
    · have hieq : i = ws.length := by omega
      subst hieq
      rw [getD_set_self _ _ _ _ (by omega)]
      rw [List.getD_append_right _ _ _ _ (le_refl _), Nat.sub_self]
      rfl

theorem sb_deq_step {α : Type} [Inhabited α] (m u : Nat) (r : α)
    (done rest : List α) (q : ConcurrentQueue α) (hm : m = 2 ^ u - 1)
    (hinv : SbInv m done (r :: rest) q)
    (hcap : done.length + (r :: rest).length ≤ m) :
    ∃ q', try_dequeue q = Except.ok (some r, q') ∧
      SbInv m (done ++ [r]) rest q' := by
  obtain ⟨hg, hdq, hlen, hfb, htb, hbm, hbf, hblf, hbt, hblt, hdlen, hdata⟩ := hinv
  have hpow : (1:Nat) ≤ 2 ^ u := Nat.one_le_two_pow
  have hand : ∀ x : Nat, x ≤ m → x &&& m = x := by
    intro x hx
    rw [hm, Nat.and_pow_two_sub_one_eq_mod]
    exact Nat.mod_eq_of_lt (by omega)
  simp only [List.length_cons] at hbt hblt hcap
  have helem : (q.blocks.getD 0 default).data.getD
      ((q.blocks.getD 0 default).front) default = r := by
    rw [hbf]
    have h0 := hdata 0 (by simp)
    simpa using h0
  have hdata1 : ∀ i, i < rest.length →
      (q.blocks.getD 0 default).data.getD (done.length + 1 + i) default
        = rest.getD i default := by
    intro i hi
    have h1 := hdata (i + 1) (by simp only [List.length_cons]; omega)
    rw [show done.length + (i + 1) = done.length + 1 + i by omega] at h1
    rw [h1]
    simp
  by_cases hD : done.length = 0
  · -- first dequeue: the cached tail is stale, the refresh path fires
    rw [if_pos hD] at hblt
    have hd1 : (q.blocks.getD q.frontBlock default).front =
        (q.blocks.getD q.frontBlock default).localTail := by
      rw [hfb, hbf, hblt, hD]
    have hd2 : (q.blocks.getD q.frontBlock default).front ≠
        (q.blocks.getD q.frontBlock default).tail := by
      rw [hfb, hbf, hbt]
      omega
    rw [try_dequeue_refresh_state q hdq hd1 hd2, hfb, helem]
    refine ⟨_, rfl, ?_⟩
    refine ⟨hg, hdq, ?_, rfl, htb, ?_, ?_, ?_, ?_, ?_, ?_, ?_⟩
    · rw [List.length_set]
      exact hlen
    · rw [getD_set_self _ _ _ _ (by omega)]
      exact hbm
    · rw [getD_set_self _ _ _ _ (by omega)]
      show ((q.blocks.getD 0 default).front + 1) &&&
          (q.blocks.getD 0 default).sizeMask = (done ++ [r]).length
      rw [hbf, hbm, hD, hand _ (by omega)]
      simp only [List.length_append, List.length_cons, List.length_nil]
      omega
    · rw [getD_set_self _ _ _ _ (by omega)]
      exact hblf
    · rw [getD_set_self _ _ _ _ (by omega)]
      show (q.blocks.getD 0 default).tail = (done ++ [r]).length + rest.length
      rw [hbt]
      simp only [List.length_append, List.length_cons, List.length_nil]
      omega
    · rw [getD_set_self _ _ _ _ (by omega)]
      show (q.blocks.getD 0 default).tail =
        if (done ++ [r]).length = 0 then 0
        else (done ++ [r]).length + rest.length
      rw [if_neg (by simp), hbt]
      simp only [List.length_append, List.length_cons, List.length_nil]
      omega
    · rw [getD_set_self _ _ _ _ (by omega)]
      exact hdlen
    · intro i hi
      rw [getD_set_self _ _ _ _ (by omega)]
      show (q.blocks.getD 0 default).data.getD ((done ++ [r]).length + i) default
        = rest.getD i default
      rw [show (done ++ [r]).length + i = done.length + 1 + i by simp]
      exact hdata1 i hi
  · -- later dequeues: the cached tail is already refreshed, fast path
    rw [if_neg hD] at hblt
    have hd1 : (q.blocks.getD q.frontBlock default).front ≠
        (q.blocks.getD q.frontBlock default).localTail := by
      rw [hfb, hbf, hblt]
      omega
    rw [try_dequeue_fast_state q hdq hd1, hfb, helem]
    refine ⟨_, rfl, ?_⟩
    refine ⟨hg, hdq, ?_, rfl, htb, ?_, ?_, ?_, ?_, ?_, ?_, ?_⟩
    · rw [List.length_set]
      exact hlen
    · rw [getD_set_self _ _ _ _ (by omega)]
      exact hbm
    · rw [getD_set_self _ _ _ _ (by omega)]
      show ((q.blocks.getD 0 default).front + 1) &&&
          (q.blocks.getD 0 default).sizeMask = (done ++ [r]).length
      rw [hbf, hbm, hand _ (by omega)]
      simp only [List.length_append, List.length_cons, List.length_nil]
    · rw [getD_set_self _ _ _ _ (by omega)]
      exact hblf
    · rw [getD_set_self _ _ _ _ (by omega)]
      show (q.blocks.getD 0 default).tail = (done ++ [r]).length + rest.length
      rw [hbt]
      simp only [List.length_append, List.length_cons, List.length_nil]
      omega
    · rw [getD_set_self _ _ _ _ (by omega)]
      show (q.blocks.getD 0 default).localTail =
        if (done ++ [r]).length = 0 then 0
        else (done ++ [r]).length + rest.length
      rw [if_neg (by simp), hblt]
      simp only [List.length_append, List.length_cons, List.length_nil]
      omega
    · rw [getD_set_self _ _ _ _ (by omega)]
      exact hdlen
    · intro i hi
      rw [getD_set_self _ _ _ _ (by omega)]
      show (q.blocks.getD 0 default).data.getD ((done ++ [r]).length + i) default
        = rest.getD i default
      rw [show (done ++ [r]).length + i = done.length + 1 + i by simp]
      exact hdata1 i hi

theorem runTryDequeues_cons_ok {α : Type} [Inhabited α] (n : Nat)
    (q q1 : ConcurrentQueue α) (r : Option α)
    (h : try_dequeue q = Except.ok (r, q1)) :
    runTryDequeues (n + 1) q =
      (runTryDequeues n q1).map (fun p => (r :: p.1, p.2)) := by
  simp only [runTryDequeues, h]

/-- Chaining `sb_enq_step` over a list of values: all enqueues on a
sufficiently empty single-block queue return `true`, and the resident
contents grow by exactly those values in order. -/
theorem sb_enq_run {α : Type} [Inhabited α] (maxBlockSize m u : Nat)
    (hm : m = 2 ^ u - 1) :
    ∀ (vs ws : List α) (q : ConcurrentQueue α), SbInv m [] ws q →
      ws.length + vs.length ≤ m →
      ∃ q', runTryEnqueues maxBlockSize vs q =
          some (List.replicate vs.length true, q') ∧
        SbInv m [] (ws ++ vs) q' := by
  intro vs
  induction vs with
  | nil =>
    intro ws q hinv _
    exact ⟨q, rfl, by simpa using hinv⟩
  | cons v vs ih =>
    intro ws q hinv hle
    obtain ⟨q1, heq, hinv1⟩ := sb_enq_step maxBlockSize m u v ws q hm hinv
      (by simp only [List.length_cons] at hle; omega)
    obtain ⟨q', heq2, hinv2⟩ := ih (ws ++ [v]) q1 hinv1
      (by simp only [List.length_cons] at hle; simp only [List.length_append,
        List.length_cons, List.length_nil]; omega)
    refine ⟨q', ?_, ?_⟩
    · rw [runTryEnqueues_cons_ok maxBlockSize v vs q q1 true heq, heq2]
      rfl
    · rw [List.append_assoc] at hinv2
      exact hinv2

/-- Chaining `sb_deq_step`: dequeuing a single-block queue holding the
values `rest` succeeds `rest.length` times and returns exactly those
values, oldest first. -/
theorem sb_deq_run {α : Type} [Inhabited α] (m u : Nat) (hm : m = 2 ^ u - 1) :
    ∀ (rest done : List α) (q : ConcurrentQueue α), SbInv m done rest q →
      done.length + rest.length ≤ m →
      ∃ q', runTryDequeues rest.length q = some (rest.map some, q') ∧
        SbInv m (done ++ rest) [] q' := by
  intro rest
  induction rest with
  | nil =>
    intro done q hinv _
    exact ⟨q, rfl, by simpa using hinv⟩
  | cons r rest ih =>
    intro done q hinv hle
    obtain ⟨q1, heq, hinv1⟩ := sb_deq_step m u r done rest q hm hinv
      (by simpa using hle)
    obtain ⟨q', heq2, hinv2⟩ := ih (done ++ [r]) q1 hinv1
      (by simp only [List.length_cons] at hle; simp only [List.length_append,
        List.length_cons, List.length_nil]; omega)
    refine ⟨q', ?_, ?_⟩
    · simp only [List.length_cons]
      rw [runTryDequeues_cons_ok rest.length q q1 (some r) heq, heq2]
      rfl
    · rw [List.append_assoc] at hinv2
      exact hinv2

/-- The queue the constructor builds for hint `100` (block-size cap
`512`) is a single block of capacity `128`, empty, in the run
invariant at mask `127`. -/
theorem sb_init (α : Type) [Inhabited α] :
    SbInv 127 ([] : List α) [] (mkQueue α 512 100) := by
  have hc : ceilToPow2 (100 + 1) ≤ 512 * 2 := by decide
  rw [mkQueue_eq_single 512 100 hc]
  have hce : ceilToPow2 (100 + 1) = 128 := by decide
  rw [hce]
  refine ⟨rfl, rfl, rfl, rfl, rfl, ?_, rfl, rfl, rfl, rfl, ?_, ?_⟩
  · show (128 + (sizeTMod - 1)) % sizeTMod = 127
    norm_num [sizeTMod]
  · show (List.replicate 128 (default : α)).length = 127 + 1
    rw [List.length_replicate]
  · intro i hi
    exact absurd hi (by simp)

/-- C1: FIFO order: for every sequence of values `v1..vN` with
`N ∈ {0, 1, 100}` enqueued sequentially on a single thread via
`try_enqueue` (on a queue constructed with capacity hint `100`,
`MAX_BLOCK_SIZE = 512`), every enqueue succeeds, and `N` successive
calls to `try_dequeue` all succeed and yield exactly `v1..vN` in that
order — no loss, duplication or reordering. -/
theorem fifo_order {α : Type} [Inhabited α] (vs : List α)
    (hN : vs.length = 0 ∨ vs.length = 1 ∨ vs.length = 100) :
    ∃ qmid qfin,
      runTryEnqueues 512 vs (mkQueue α 512 100) =
        some (List.replicate vs.length true, qmid) ∧
      runTryDequeues vs.length qmid = some (vs.map some, qfin) := by
  have hlen : vs.length ≤ 127 := by rcases hN with h | h | h <;> omega
  obtain ⟨qmid, h1, hinv1⟩ := sb_enq_run 512 127 7 (by norm_num) vs []
    (mkQueue α 512 100) (sb_init α) (by simpa using hlen)
  obtain ⟨qfin, h2, _⟩ := sb_deq_run 127 7 (by norm_num) vs [] qmid hinv1
    (by simpa using hlen)
  exact ⟨qmid, qfin, h1, h2⟩

/-- Closed instance of the FIFO property at the one-element sequence
`[5]`: the enqueue returns `true` and the single dequeue returns the
value back. -/
theorem fifo_order_witness :
    (([5] : List Nat).length = 0 ∨ ([5] : List Nat).length = 1 ∨
      ([5] : List Nat).length = 100) ∧
    ∃ qmid qfin,
      runTryEnqueues 512 [5] (mkQueue Nat 512 100) =
        some (List.replicate ([5] : List Nat).length true, qmid) ∧
      runTryDequeues ([5] : List Nat).length qmid = some ([5].map some, qfin) :=
  ⟨Or.inr (Or.inl rfl), fifo_order [5] (Or.inr (Or.inl rfl))⟩

/-- On a successful `try_enqueue` the element is constructed into the
queue: it is appended to the resident contents of the block that ends
up being the tail block (either the old tail block, or — when that one
is full — its ring successor), and the resident contents of every
other block are untouched.  Requires the invariants that hold in every
reachable state: well-formedness, producer-cache dominance, the ring
successor of the tail block being drained when it is not the front
block, and every block having at least two slots. -/
theorem try_enqueue_success_append {α : Type} [Inhabited α] (maxBlockSize : Nat)
    (v : α) (q : ConcurrentQueue α) (hg : q.enqueuing = false)
    (hwf : WF q) (hsh : ShadowInv q)
    (hdrained : (q.tailBlock + 1) % q.blocks.length ≠ q.frontBlock →
      (q.blocks.getD ((q.tailBlock + 1) % q.blocks.length) default).front =
        (q.blocks.getD ((q.tailBlock + 1) % q.blocks.length) default).tail)
    (hmasks : ∀ b ∈ q.blocks, 1 ≤ b.sizeMask)
    (q' : ConcurrentQueue α)
    (hq : try_enqueue maxBlockSize v q = Except.ok (true, q')) :
    q'.frontBlock = q.frontBlock ∧
    (q'.tailBlock = q.tailBlock ∨
      q'.tailBlock = (q.tailBlock + 1) % q.blocks.length) ∧
    (q'.blocks.getD q'.tailBlock default).residentList
      = (q.blocks.getD q'.tailBlock default).residentList ++ [v] ∧
    (∀ k, k ≠ q'.tailBlock →
      (q'.blocks.getD k default).residentList
        = (q.blocks.getD k default).residentList) := by
  obtain ⟨hlen0, hfblt, htblt, hall, _⟩ := hwf
  have hbmem := getD_mem q.blocks q.tailBlock default htblt
  obtain ⟨hbf, hbt, hblf, hblt2, ⟨ut, hut, hmask⟩, hblen⟩ := hall _ hbmem
  have hsh0 := hsh _ hbmem
  rw [try_enqueue_eq maxBlockSize v q hg] at hq
  by_cases hc1e : ((q.blocks.getD q.tailBlock default).tail + 1) &&&
      (q.blocks.getD q.tailBlock default).sizeMask =
      (q.blocks.getD q.tailBlock default).localFront
  · by_cases hc2e : ((q.blocks.getD q.tailBlock default).tail + 1) &&&
        (q.blocks.getD q.tailBlock default).sizeMask =
        (q.blocks.getD q.tailBlock default).front
    · by_cases hc3e : (q.tailBlock + 1) % q.blocks.length = q.frontBlock
      · -- the ring is exhausted: the call would have returned false
        have hok : (inner_enqueue maxBlockSize false false v
            { q with enqueuing := true }).ok = false :=
          (inner_enqueue_ok_false_iff maxBlockSize false false v
            { q with enqueuing := true }).mpr ⟨hc1e, hc2e, hc3e, Or.inl rfl⟩
        have h1 := Except.ok.inj hq
        have h2 := (Prod.mk.injEq _ _ _ _ ▸ h1).1
        rw [hok] at h2
        exact absurd h2 (by simp)
      · -- full tail block, free block ahead: enqueue into the successor
        have hnetb : (q.tailBlock + 1) % q.blocks.length ≠ q.tailBlock := by
          rw [succ_mod_eq htblt]
          split_ifs with h
          · intro h0
            exact hc3e (by rw [succ_mod_eq htblt, if_pos h]; omega)
          · omega
        have hnextlt : (q.tailBlock + 1) % q.blocks.length < q.blocks.length :=
          Nat.mod_lt _ (by omega)
        have hbmem2 := getD_mem q.blocks ((q.tailBlock + 1) % q.blocks.length)
          default hnextlt
        obtain ⟨hbfn, hbtn, hblfn, hbltn, ⟨u2, hu2, hmask2⟩, hblenn⟩ := hall _ hbmem2
        have hmaskpos : 1 ≤ (q.blocks.getD ((q.tailBlock + 1) % q.blocks.length)
            default).sizeMask := hmasks _ hbmem2
        have hdr := hdrained hc3e
        rw [inner_enqueue_next_state maxBlockSize false false v
          { q with enqueuing := true } hc1e hc2e hc3e] at hq
        rw [getD_set_ne q.blocks q.tailBlock ((q.tailBlock + 1) % q.blocks.length)
          { q.blocks.getD q.tailBlock default with
              localFront := (q.blocks.getD q.tailBlock default).front }
          default hnetb.symm] at hq
        have h1 := Except.ok.inj hq
        have hq2 : q' = ConcurrentQueue.mk
            ((q.blocks.set q.tailBlock
                { q.blocks.getD q.tailBlock default with
                    localFront := (q.blocks.getD q.tailBlock default).front }).set
              ((q.tailBlock + 1) % q.blocks.length)
              { q.blocks.getD ((q.tailBlock + 1) % q.blocks.length) default with
                  localFront := (q.blocks.getD ((q.tailBlock + 1) %
                    q.blocks.length) default).front,
                  data := (q.blocks.getD ((q.tailBlock + 1) %
                    q.blocks.length) default).data.set
                    (q.blocks.getD ((q.tailBlock + 1) %
                      q.blocks.length) default).tail v,
                  tail := ((q.blocks.getD ((q.tailBlock + 1) %
                    q.blocks.length) default).tail + 1) &&&
                    (q.blocks.getD ((q.tailBlock + 1) %
                      q.blocks.length) default).sizeMask })
            q.frontBlock ((q.tailBlock + 1) % q.blocks.length)
            q.largestBlockSize false q.dequeuing :=
          ((Prod.mk.injEq _ _ _ _ ▸ h1).2).symm
        subst hq2
        have hroom2 : ((q.blocks.getD ((q.tailBlock + 1) % q.blocks.length)
            default).tail + 1) &&&
            (q.blocks.getD ((q.tailBlock + 1) % q.blocks.length) default).sizeMask ≠
            (q.blocks.getD ((q.tailBlock + 1) % q.blocks.length) default).front := by
          have handx : ((q.blocks.getD ((q.tailBlock + 1) % q.blocks.length)
              default).tail + 1) &&&
              (q.blocks.getD ((q.tailBlock + 1) % q.blocks.length) default).sizeMask =
              ((q.blocks.getD ((q.tailBlock + 1) % q.blocks.length)
                default).tail + 1) %
                ((q.blocks.getD ((q.tailBlock + 1) % q.blocks.length)
                  default).sizeMask + 1) := by
            rw [hmask2]
            have hpow2 : (1:Nat) ≤ 2 ^ u2 := Nat.one_le_two_pow
            have e : (2:Nat) ^ u2 - 1 + 1 = 2 ^ u2 := by omega
            rw [Nat.and_pow_two_sub_one_eq_mod, e]
          rw [handx, succ_mod_eq (by omega), hdr]
          split_ifs <;> omega
        refine ⟨rfl, Or.inr rfl, ?_, ?_⟩
        · show (((q.blocks.set q.tailBlock
              { q.blocks.getD q.tailBlock default with
                  localFront := (q.blocks.getD q.tailBlock default).front }).set
                ((q.tailBlock + 1) % q.blocks.length)
                { q.blocks.getD ((q.tailBlock + 1) % q.blocks.length) default with
                    localFront := (q.blocks.getD ((q.tailBlock + 1) %
                      q.blocks.length) default).front,
                    data := (q.blocks.getD ((q.tailBlock + 1) %
                      q.blocks.length) default).data.set
                      (q.blocks.getD ((q.tailBlock + 1) %
                        q.blocks.length) default).tail v,
                    tail := ((q.blocks.getD ((q.tailBlock + 1) %
                      q.blocks.length) default).tail + 1) &&&
                      (q.blocks.getD ((q.tailBlock + 1) %
                        q.blocks.length) default).sizeMask }).getD
              ((q.tailBlock + 1) % q.blocks.length) default).residentList
            = (q.blocks.getD ((q.tailBlock + 1) % q.blocks.length)
                default).residentList ++ [v]
          rw [getD_set_self _ _ _ _ (by rw [List.length_set]; exact hnextlt)]
          exact residentList_push v _ _ _ _ _ _ u2 _ hmask2 hbfn hbtn hblenn hroom2
        · intro k hk
          show (((q.blocks.set q.tailBlock
              { q.blocks.getD q.tailBlock default with
                  localFront := (q.blocks.getD q.tailBlock default).front }).set
                ((q.tailBlock + 1) % q.blocks.length)
                { q.blocks.getD ((q.tailBlock + 1) % q.blocks.length) default with
                    localFront := (q.blocks.getD ((q.tailBlock + 1) %
                      q.blocks.length) default).front,
                    data := (q.blocks.getD ((q.tailBlock + 1) %
                      q.blocks.length) default).data.set
                      (q.blocks.getD ((q.tailBlock + 1) %
                        q.blocks.length) default).tail v,
                    tail := ((q.blocks.getD ((q.tailBlock + 1) %
                      q.blocks.length) default).tail + 1) &&&
                      (q.blocks.getD ((q.tailBlock + 1) %
                        q.blocks.length) default).sizeMask }).getD
              k default).residentList
            = (q.blocks.getD k default).residentList
          rw [getD_set_ne _ _ _ _ _ (fun h => hk h.symm)]
          by_cases hk2 : k = q.tailBlock
          · subst hk2
            rw [getD_set_self _ _ _ _ htblt]
            exact residentList_localFront (q.blocks.getD q.tailBlock default)
              (q.blocks.getD q.tailBlock default).front
          · rw [getD_set_ne _ _ _ _ _ (fun h => hk2 h.symm)]
    · -- room after refreshing the cached front
      rw [inner_enqueue_refresh_state maxBlockSize false false v
        { q with enqueuing := true } hc1e hc2e] at hq
      have h1 := Except.ok.inj hq
      have hq2 : q' = ConcurrentQueue.mk
          (q.blocks.set q.tailBlock
            { q.blocks.getD q.tailBlock default with
                localFront := (q.blocks.getD q.tailBlock default).front,
                data := (q.blocks.getD q.tailBlock default).data.set
                  (q.blocks.getD q.tailBlock default).tail v,
                tail := ((q.blocks.getD q.tailBlock default).tail + 1) &&&
                  (q.blocks.getD q.tailBlock default).sizeMask })
          q.frontBlock q.tailBlock q.largestBlockSize false q.dequeuing :=
        ((Prod.mk.injEq _ _ _ _ ▸ h1).2).symm
      subst hq2
      refine ⟨rfl, Or.inl rfl, ?_, ?_⟩
      · show ((q.blocks.set q.tailBlock
            { q.blocks.getD q.tailBlock default with
                localFront := (q.blocks.getD q.tailBlock default).front,
                data := (q.blocks.getD q.tailBlock default).data.set
                  (q.blocks.getD q.tailBlock default).tail v,
                tail := ((q.blocks.getD q.tailBlock default).tail + 1) &&&
                  (q.blocks.getD q.tailBlock default).sizeMask }).getD
            q.tailBlock default).residentList
          = (q.blocks.getD q.tailBlock default).residentList ++ [v]
        rw [getD_set_self _ _ _ _ htblt]
        exact residentList_push v _ _ _ _ _ _ ut _ hmask hbf hbt hblen hc2e
      · intro k hk
        show ((q.blocks.set q.tailBlock
            { q.blocks.getD q.tailBlock default with
                localFront := (q.blocks.getD q.tailBlock default).front,
                data := (q.blocks.getD q.tailBlock default).data.set
                  (q.blocks.getD q.tailBlock default).tail v,
                tail := ((q.blocks.getD q.tailBlock default).tail + 1) &&&
                  (q.blocks.getD q.tailBlock default).sizeMask }).getD
            k default).residentList
          = (q.blocks.getD k default).residentList
        rw [getD_set_ne _ _ _ _ _ (fun h => hk h.symm)]
  · -- room per the producer's cached front: the fast path
    rw [inner_enqueue_fast_state maxBlockSize false false v
      { q with enqueuing := true } hc1e] at hq
    have h1 := Except.ok.inj hq
    have hq2 : q' = ConcurrentQueue.mk
        (q.blocks.set q.tailBlock
          { q.blocks.getD q.tailBlock default with
              data := (q.blocks.getD q.tailBlock default).data.set
                (q.blocks.getD q.tailBlock default).tail v,
              tail := ((q.blocks.getD q.tailBlock default).tail + 1) &&&
                (q.blocks.getD q.tailBlock default).sizeMask })
        q.frontBlock q.tailBlock q.largestBlockSize false q.dequeuing :=
      ((Prod.mk.injEq _ _ _ _ ▸ h1).2).symm
    subst hq2
    have hroom : ((q.blocks.getD q.tailBlock default).tail + 1) &&&
        (q.blocks.getD q.tailBlock default).sizeMask ≠
        (q.blocks.getD q.tailBlock default).front := by
      intro hfull
      exact hc1e (block_full_shadow _ hbf hbt hblf hsh0 ut hmask hfull)
    refine ⟨rfl, Or.inl rfl, ?_, ?_⟩
    · show ((q.blocks.set q.tailBlock
          { q.blocks.getD q.tailBlock default with
              data := (q.blocks.getD q.tailBlock default).data.set
                (q.blocks.getD q.tailBlock default).tail v,
              tail := ((q.blocks.getD q.tailBlock default).tail + 1) &&&
                (q.blocks.getD q.tailBlock default).sizeMask }).getD
          q.tailBlock default).residentList
        = (q.blocks.getD q.tailBlock default).residentList ++ [v]
      rw [getD_set_self _ _ _ _ htblt]
      exact residentList_push v _ _ _ _ _ _ ut _ hmask hbf hbt hblen hroom
    · intro k hk
      show ((q.blocks.set q.tailBlock
          { q.blocks.getD q.tailBlock default with
              data := (q.blocks.getD q.tailBlock default).data.set
                (q.blocks.getD q.tailBlock default).tail v,
              tail := ((q.blocks.getD q.tailBlock default).tail + 1) &&&
                (q.blocks.getD q.tailBlock default).sizeMask }).getD
          k default).residentList
        = (q.blocks.getD k default).residentList
      rw [getD_set_ne _ _ _ _ _ (fun h => hk h.symm)]

/-- C5 (amended): `try_enqueue` never allocates (ring shape untouched,
allocation site never reached) and returns false if and only if the
tail block is full — its incremented tail index equals its front, both
as cached by the producer and as freshly read — and the tail block's
ring successor is the front block.  This is implied by, but not
equivalent to, the absence of room anywhere in the ring: drained
blocks at or before the front block may still hold free slots.
Otherwise it constructs the element into the queue and returns true:
under the invariants that hold in every reachable state, the element
is appended to the resident contents of the block that becomes the
tail block, and every other block's resident contents are untouched. -/
theorem try_enqueue_contract {α : Type} [Inhabited α] (maxBlockSize : Nat) (v : α)
    (q : ConcurrentQueue α) (hg : q.enqueuing = false) :
    ((try_enqueue maxBlockSize v q).map Prod.fst = Except.ok false ↔
       (((q.blocks.getD q.tailBlock default).tail + 1) &&&
           (q.blocks.getD q.tailBlock default).sizeMask =
         (q.blocks.getD q.tailBlock default).localFront ∧
        ((q.blocks.getD q.tailBlock default).tail + 1) &&&
           (q.blocks.getD q.tailBlock default).sizeMask =
         (q.blocks.getD q.tailBlock default).front ∧
        (q.tailBlock + 1) % q.blocks.length = q.frontBlock)) ∧
    (∀ b q', try_enqueue maxBlockSize v q = Except.ok (b, q') →
       blockCapacities q' = blockCapacities q ∧
       q'.blocks.length = q.blocks.length) ∧
    (inner_enqueue maxBlockSize false false v { q with enqueuing := true }).allocated
      = false ∧
    (WF q → ShadowInv q →
     ((q.tailBlock + 1) % q.blocks.length ≠ q.frontBlock →
       (q.blocks.getD ((q.tailBlock + 1) % q.blocks.length) default).front =
         (q.blocks.getD ((q.tailBlock + 1) % q.blocks.length) default).tail) →
     (∀ b ∈ q.blocks, 1 ≤ b.sizeMask) →
     ∀ q', try_enqueue maxBlockSize v q = Except.ok (true, q') →
       q'.frontBlock = q.frontBlock ∧
       (q'.tailBlock = q.tailBlock ∨
         q'.tailBlock = (q.tailBlock + 1) % q.blocks.length) ∧
       (q'.blocks.getD q'.tailBlock default).residentList
         = (q.blocks.getD q'.tailBlock default).residentList ++ [v] ∧
       (∀ k, k ≠ q'.tailBlock →
         (q'.blocks.getD k default).residentList
           = (q.blocks.getD k default).residentList)) := by
  have he := try_enqueue_eq maxBlockSize v q hg
  refine ⟨?_, ?_, (inner_enqueue_noalloc_capacities maxBlockSize false v _).2, ?_⟩
  · rw [he]
    have hiff := inner_enqueue_ok_false_iff maxBlockSize false false v
      { q with enqueuing := true }
    constructor
    · intro hmap
      have hok : (inner_enqueue maxBlockSize false false v
          { q with enqueuing := true }).ok = false := by
        simpa [Except.map] using hmap
      exact ⟨(hiff.mp hok).1, (hiff.mp hok).2.1, (hiff.mp hok).2.2.1⟩
    · intro hcond
      have hok := hiff.mpr ⟨hcond.1, hcond.2.1, hcond.2.2, Or.inl rfl⟩
      simp [Except.map, hok]
  · intro b q' hbq
    rw [he] at hbq
    have hq' : q' = { (inner_enqueue maxBlockSize false false v
        { q with enqueuing := true }).q with enqueuing := false } := by
      have h1 := Except.ok.inj hbq
      exact (Prod.mk.injEq _ _ _ _ ▸ h1).2.symm
    have hcap := (inner_enqueue_noalloc_capacities maxBlockSize false v
      { q with enqueuing := true }).1
    constructor
    · rw [hq']
      exact hcap
    · have hlen := congrArg List.length hcap
      simp only [blockCapacities, List.length_map] at hlen
      rw [hq']
      exact hlen
  · intro hwf hsh hdrained hmasks q' hq
    exact try_enqueue_success_append maxBlockSize v q hg hwf hsh hdrained hmasks q' hq

/-- Witness for C5 (amended) at the concrete state `c5State`. -/
theorem try_enqueue_contract_witness :
    ((try_enqueue 4 77 c5State).map Prod.fst = Except.ok false ↔
       (((c5State.blocks.getD c5State.tailBlock default).tail + 1) &&&
           (c5State.blocks.getD c5State.tailBlock default).sizeMask =
         (c5State.blocks.getD c5State.tailBlock default).localFront ∧
        ((c5State.blocks.getD c5State.tailBlock default).tail + 1) &&&
           (c5State.blocks.getD c5State.tailBlock default).sizeMask =
         (c5State.blocks.getD c5State.tailBlock default).front ∧
        (c5State.tailBlock + 1) % c5State.blocks.length = c5State.frontBlock)) ∧
    (∀ b q', try_enqueue 4 77 c5State = Except.ok (b, q') →
       blockCapacities q' = blockCapacities c5State ∧
       q'.blocks.length = c5State.blocks.length) ∧
    (inner_enqueue 4 false false 77 { c5State with enqueuing := true }).allocated
      = false ∧
    (WF c5State → ShadowInv c5State →
     ((c5State.tailBlock + 1) % c5State.blocks.length ≠ c5State.frontBlock →
       (c5State.blocks.getD ((c5State.tailBlock + 1) % c5State.blocks.length)
           default).front =
         (c5State.blocks.getD ((c5State.tailBlock + 1) % c5State.blocks.length)
           default).tail) →
     (∀ b ∈ c5State.blocks, 1 ≤ b.sizeMask) →
     ∀ q', try_enqueue 4 77 c5State = Except.ok (true, q') →
       q'.frontBlock = c5State.frontBlock ∧
       (q'.tailBlock = c5State.tailBlock ∨
         q'.tailBlock = (c5State.tailBlock + 1) % c5State.blocks.length) ∧
       (q'.blocks.getD q'.tailBlock default).residentList
         = (c5State.blocks.getD q'.tailBlock default).residentList ++ [77] ∧
       (∀ k, k ≠ q'.tailBlock →
         (q'.blocks.getD k default).residentList
           = (c5State.blocks.getD k default).residentList)) :=
  try_enqueue_contract 4 77 c5State (by decide)
